
import Mathlib

set_option maxHeartbeats 1000000

set_option maxRecDepth 4000

/-!
Shallow embedding of the two-part expense tracker (input.py and
visualize.py).  Strings are modelled through their character lists;
Python Decimal values are modelled exactly as sign/coefficient/exponent
triples; Python floats on the aggregation path are modelled as exact
rationals (the source itself accepts precision loss there, and no claim
depends on binary rounding).  File contents are modelled as an optional
string: none stands for a missing file.
-/

/-- Characters removed by the Python str.strip method.  The program only
ever meets ASCII whitespace; the rare further Unicode space characters
are outside this model. -/

def pySpace (c : Char) : Bool :=
  c = ' ' || c = '\t' || c = '\n' || c = '\x0b' || c = '\x0c' || c = '\r'

/-- Python lstrip on a character list. -/

def lstripL (l : List Char) : List Char := l.dropWhile pySpace

/-- Python rstrip on a character list. -/

def rstripL (l : List Char) : List Char := (l.reverse.dropWhile pySpace).reverse

/-- Python strip on a character list. -/

def stripL (l : List Char) : List Char := rstripL (lstripL l)

/-- Python strip on a string. -/

def stripS (s : String) : String := ⟨stripL s.data⟩

/-- Python rstrip with an explicit character set. -/

def rstripSet (l : List Char) (cs : List Char) : List Char :=
  (l.reverse.dropWhile (fun c => cs.contains c)).reverse

/-- ASCII lower casing; the strings compared case-insensitively in this
program (date sentinels, header names) are ASCII. -/

def lowerChar (c : Char) : Char :=
  if 'A' ≤ c ∧ c ≤ 'Z' then Char.ofNat (c.toNat + 32) else c

/-- Python str.lower on a string (ASCII fragment). -/

def lowerS (s : String) : String := ⟨s.data.map lowerChar⟩

/-- A finite Python decimal.Decimal value: sign, coefficient and exponent.
The Decimal constructor stores the coefficient as an integer, so leading
zeros of a literal vanish while trailing zeros stay in the coefficient
with a correspondingly negative exponent. -/

structure PyDec where
  sign : Bool
  coeff : Nat
  exp : Int
deriving Repr, DecidableEq

/-- Numeric value of one decimal digit character. -/

def digitVal (c : Char) : Nat := c.toNat - 48

/-- Value of a most-significant-first digit character list. -/

def natOfDigits (l : List Char) : Nat :=
  l.foldl (fun a c => a * 10 + digitVal c) 0

/-- Parse the digit core of a decimal literal: digits, optionally a dot
with further digits, at least one digit in all.  Returns the coefficient
digits, the number of fractional digits, and the remaining characters. -/

def parseDigitsDot (l : List Char) : Option (List Char × Nat × List Char) :=
  let intd := l.takeWhile Char.isDigit
  let r1 := l.dropWhile Char.isDigit
  match r1 with
  | '.' :: r2 =>
    let frac := r2.takeWhile Char.isDigit
    let r3 := r2.dropWhile Char.isDigit
    if intd = [] ∧ frac = [] then none else some (intd ++ frac, frac.length, r3)
  | _ => if intd = [] then none else some (intd, 0, r1)

/-- Parse the optional exponent tail of a decimal literal. -/

def parseExpPart (l : List Char) : Option Int :=
  match l with
  | [] => some 0
  | 'e' :: '+' :: r => if r ≠ [] ∧ r.all Char.isDigit then some (natOfDigits r) else none
  | 'E' :: '+' :: r => if r ≠ [] ∧ r.all Char.isDigit then some (natOfDigits r) else none
  | 'e' :: '-' :: r => if r ≠ [] ∧ r.all Char.isDigit then some (-(natOfDigits r : Int)) else none
  | 'E' :: '-' :: r => if r ≠ [] ∧ r.all Char.isDigit then some (-(natOfDigits r : Int)) else none
  | 'e' :: r => if r ≠ [] ∧ r.all Char.isDigit then some (natOfDigits r) else none
  | 'E' :: r => if r ≠ [] ∧ r.all Char.isDigit then some (natOfDigits r) else none
  | _ => none

/-- Parse a finite decimal literal the way the Python Decimal constructor
does: optional sign, digits with an optional fraction, optional exponent.
The special values NaN and Infinity and PEP 515 underscores are outside
this model; no claim touches them. -/

def parseDec (l : List Char) : Option PyDec :=
  let p : Bool × List Char :=
    match l with
    | '+' :: r => (false, r)
    | '-' :: r => (true, r)
    | _ => (false, l)
  match parseDigitsDot p.2 with
  | none => none
  | some (digs, fl, rest) =>
    match parseExpPart rest with
    | none => none
    | some e => some ⟨p.1, natOfDigits digs, e - (fl : Int)⟩

instance {α β : Type} [DecidableEq α] [DecidableEq β] : DecidableEq (Except α β) := fun a b =>
  match a, b with
  | .ok x, .ok y => if h : x = y then isTrue (by rw [h]) else isFalse (by simp [h])
  | .error x, .error y => if h : x = y then isTrue (by rw [h]) else isFalse (by simp [h])
  | .ok _, .error _ => isFalse (by simp)
  | .error _, .ok _ => isFalse (by simp)

/-- Exact rational value of a decimal, built with mkRat so that concrete

instances evaluate by the decide tactic. -/

def decValue (d : PyDec) : ℚ :=
  if 0 ≤ d.exp then
    mkRat ((if d.sign then -(d.coeff : Int) else (d.coeff : Int)) * 10 ^ d.exp.toNat) 1
  else
    mkRat (if d.sign then -(d.coeff : Int) else (d.coeff : Int)) (10 ^ (-d.exp).toNat)

/-- Move trailing zeros of the coefficient into the exponent.  The fuel
argument makes the recursion structural; fuel equal to the coefficient is
always enough since each step divides the coefficient by ten. -/

def stripTZ : Nat → Nat → Int → Nat × Int
  | 0, c, e => (c, e)
  | f + 1, c, e => if c ≠ 0 ∧ c % 10 = 0 then stripTZ f (c / 10) (e + 1) else (c, e)

/-- Python Decimal.normalize on a finite value: zero gets exponent 0,
otherwise trailing zeros move from the coefficient into the exponent.
(Context rounding only acts beyond 28 digits and never on this path.) -/

def decNormalize (d : PyDec) : PyDec :=
  if d.coeff = 0 then ⟨d.sign, 0, 0⟩
  else
    let p := stripTZ d.coeff d.coeff d.exp
    ⟨d.sign, p.1, p.2⟩

/-- Decimal digit characters of a natural number, most significant first;
fuel-structured recursion, fuel equal to the number is always enough. -/

def natToCharsAux : Nat → Nat → List Char → List Char
  | 0, _, acc => acc
  | f + 1, n, acc =>
    if n = 0 then acc else natToCharsAux f (n / 10) (Nat.digitChar (n % 10) :: acc)

/-- Decimal digit characters of a natural number, with zero printed. -/

def natToChars (n : Nat) : List Char :=
  if n = 0 then ['0'] else natToCharsAux (n + 1) n []

/-- Python format(d, "f"): fixed-point rendering, never scientific. -/

def formatF (d : PyDec) : List Char :=
  let sgn : List Char := if d.sign then ['-'] else []
  if 0 ≤ d.exp then
    sgn ++ natToChars d.coeff ++ List.replicate d.exp.toNat '0'
  else
    let k := (-d.exp).toNat
    let fd := natToChars (d.coeff % 10 ^ k)
    sgn ++ natToChars (d.coeff / 10 ^ k) ++ '.' :: (List.replicate (k - fd.length) '0' ++ fd)

/-- Python str on a Decimal: the to-scientific-string algorithm of the
General Decimal Arithmetic specification. -/

def strDec (d : PyDec) : List Char :=
  let sgn : List Char := if d.sign then ['-'] else []
  let digs := natToChars d.coeff
  let n : Int := digs.length
  let adj : Int := d.exp + n - 1
  if d.exp ≤ 0 ∧ -6 ≤ adj then
    if d.exp = 0 then sgn ++ digs
    else if -d.exp < n then
      let k := (-d.exp).toNat
      sgn ++ (digs.take (digs.length - k) ++ '.' :: digs.drop (digs.length - k))
    else
      sgn ++ '0' :: '.' :: (List.replicate ((-d.exp).toNat - digs.length) '0' ++ digs)
  else
    let tail := digs.drop 1
    sgn ++ digs.take 1 ++ (if tail = [] then [] else '.' :: tail) ++
      'E' :: (if 0 ≤ adj then '+' :: natToChars adj.toNat else '-' :: natToChars (-adj).toNat)

/-- The function normalize_amount of input.py: strip, drop comma
separators, parse as Decimal, reject a non-positive value, then render
the result through the format-then-strip branch of the source. -/

def normalize_amount (s : String) : Except String String :=
  let st := stripL s.data
  if st = [] then .error "金額不可空白"
  else
    let s2 := st.filter (fun c => c ≠ ',')
    match parseDec s2 with
    | none => .error "金額格式錯誤，請輸入數字（例如 120 或 120.5）"
    | some d =>
      if decValue d ≤ 0 then .error "金額必須 > 0"
      else
        let f := formatF (decNormalize d)
        if f.contains '.' then .ok ⟨rstripSet (rstripSet f ['0']) ['.']⟩
        else .ok ⟨strDec d⟩

/-- Gregorian leap year rule, as the datetime constructor applies it. -/

def isLeap (y : Nat) : Bool := y % 4 = 0 ∧ (y % 100 ≠ 0 ∨ y % 400 = 0)

/-- Days in a month, as the datetime constructor validates them. -/

def daysInMonth (y m : Nat) : Nat :=
  if m = 2 then (if isLeap y then 29 else 28)
  else if m = 4 ∨ m = 6 ∨ m = 9 ∨ m = 11 then 30
  else 31

/-- Decimal digit test through code points, as the regex class uses it. -/

def isDig (c : Char) : Bool := 48 ≤ c.toNat ∧ c.toNat ≤ 57

/-- Exactly four digit characters, as the strptime Y directive demands. -/

def parse4Digits : List Char → Option (Nat × List Char)
  | a :: b :: c :: d :: r =>
    if isDig a ∧ isDig b ∧ isDig c ∧ isDig d then
      some ((((digitVal a * 10 + digitVal b) * 10 + digitVal c) * 10 + digitVal d), r)
    else none
  | _ => none

/-- Month alternatives of the strptime regex for the m directive, in
regex order: first 1 followed by 0 to 2, then 0 followed by 1 to 9, then
a single 1 to 9.  Each candidate carries the remaining input; the caller
tries the continuation on each in turn, which models backtracking. -/

def monthAlts (l : List Char) : List (Nat × List Char) :=
  (match l with
    | '1' :: c :: r => if 48 ≤ c.toNat ∧ c.toNat ≤ 50 then [(10 + digitVal c, r)] else []
    | _ => []) ++
  (match l with
    | '0' :: c :: r => if 49 ≤ c.toNat ∧ c.toNat ≤ 57 then [(digitVal c, r)] else []
    | _ => []) ++
  (match l with
    | c :: r => if 49 ≤ c.toNat ∧ c.toNat ≤ 57 then [(digitVal c, r)] else []
    | _ => [])

/-- Day alternatives of the strptime regex for the d directive, in regex
order: 3 followed by 0 or 1, then 1 or 2 followed by a digit, then 0
followed by 1 to 9, then a single 1 to 9. -/

def dayAlts (l : List Char) : List (Nat × List Char) :=
  (match l with
    | '3' :: c :: r => if c = '0' ∨ c = '1' then [(30 + digitVal c, r)] else []
    | _ => []) ++
  (match l with
    | a :: b :: r =>
      if (a = '1' ∨ a = '2') ∧ isDig b then [(digitVal a * 10 + digitVal b, r)] else []
    | _ => []) ++
  (match l with
    | '0' :: c :: r => if 49 ≤ c.toNat ∧ c.toNat ≤ 57 then [(digitVal c, r)] else []
    | _ => []) ++
  (match l with
    | c :: r => if 49 ≤ c.toNat ∧ c.toNat ≤ 57 then [(digitVal c, r)] else []
    | _ => [])

/-- The full regex match of strptime with format Y dash m dash d: year,
separator, month alternation, separator, day alternation, end of input,
with regex backtracking across the alternations. -/

def ymdMatch (l : List Char) : Option (Nat × Nat × Nat) :=
  match parse4Digits l with
  | none => none
  | some (y, r1) =>
    match r1 with
    | '-' :: r2 =>
      (monthAlts r2).findSome? (fun pm =>
        match pm.2 with
        | '-' :: r3 =>
          (dayAlts r3).findSome? (fun pd =>
            if pd.2 = [] then some (y, pm.1, pd.1) else none)
        | _ => none)
    | _ => none

/-- The strptime call of normalize_date: the regex match followed by the
calendar validation the datetime constructor performs. -/

def strptimeYmd (l : List Char) : Option (Nat × Nat × Nat) :=
  match ymdMatch l with
  | none => none
  | some (y, m, d) =>
    if 1 ≤ y ∧ 1 ≤ m ∧ m ≤ 12 ∧ 1 ≤ d ∧ d ≤ daysInMonth y m then some (y, m, d)
    else none

/-- Year as printed by strftime with the Y directive on the glibc
platform family: decimal digits without zero padding.  (Some platforms
pad to four digits; the repository gives no platform pin, and the glibc
behaviour is the one checked against a live interpreter here.) -/

def yearChars (y : Nat) : List Char :=
  if 1000 ≤ y then
    [Nat.digitChar (y / 1000), Nat.digitChar (y / 100 % 10),
      Nat.digitChar (y / 10 % 10), Nat.digitChar (y % 10)]
  else if 100 ≤ y then
    [Nat.digitChar (y / 100), Nat.digitChar (y / 10 % 10), Nat.digitChar (y % 10)]
  else if 10 ≤ y then [Nat.digitChar (y / 10), Nat.digitChar (y % 10)]
  else [Nat.digitChar y]

/-- Two-digit zero-padded rendering, as strftime does for m and d. -/

def twoChars (n : Nat) : List Char := [Nat.digitChar (n / 10), Nat.digitChar (n % 10)]

/-- The strftime Y dash m dash d rendering of a date. -/

def fmtDate (y m d : Nat) : String :=
  ⟨yearChars y ++ '-' :: twoChars m ++ '-' :: twoChars d⟩

/-- The sentinel spellings that normalize_date maps to the current date. -/

def isTodayWord (s : String) : Bool :=
  lowerS s = "today" || lowerS s = "t" || s = "今日" || s = "今天"

/-- The function normalize_date of input.py.  The impure current date is
passed in as the parameter today, standing for the strftime rendering of
datetime.now in the source. -/

def normalize_date (today : String) (s : String) : Except String String :=
  let st : String := stripS s
  if st = "" then .error "日期不可空白"
  else if isTodayWord st then .ok today
  else
    match strptimeYmd (st.data.map (fun c => if c = '/' then '-' else c)) with
    | none => .error "日期格式錯誤，請用 YYYY-MM-DD（例如 2025-12-15）"
    | some (y, m, d) => .ok (fmtDate y m d)

/-- Parser states of the csv reader state machine of the Python csv
module (default excel dialect: delimiter comma, quote character the
double quote, doubled quotes, non strict). -/

inductive CsvState
  | startRecord | startField | inField | inQuoted | quoteInQuoted | afterCR
deriving Repr, DecidableEq

/-- Running state of the csv reader: parser state, characters of the
field being read, fields of the record being read, finished records. -/

structure CsvM where
  st : CsvState
  field : List Char
  row : List (List Char)
  rows : List (List (List Char))
deriving Repr, DecidableEq

/-- Initial reader state. -/

def csvInit : CsvM := ⟨.startRecord, [], [], []⟩

/-- One reader step at the start of a record.  A bare terminator yields
an empty record, as the reader returns one (possibly empty) record per
input line. -/

def csvStepSR (m : CsvM) (c : Char) : CsvM :=
  if c = '\r' then ⟨.afterCR, [], [], m.rows ++ [m.row]⟩
  else if c = '\n' then ⟨.startRecord, [], [], m.rows ++ [m.row]⟩
  else if c = ',' then ⟨.startField, [], m.row ++ [m.field], m.rows⟩
  else if c = '"' then ⟨.inQuoted, m.field, m.row, m.rows⟩
  else ⟨.inField, m.field ++ [c], m.row, m.rows⟩

/-- One step of the csv reader state machine.  The afterCR state stands
for the position right after a carriage return: a following line feed
belongs to the same terminator, anything else starts a new record. -/

def csvStep (m : CsvM) (c : Char) : CsvM :=
  match m.st with
  | .startRecord => csvStepSR m c
  | .afterCR => if c = '\n' then ⟨.startRecord, m.field, m.row, m.rows⟩ else csvStepSR m c
  | .startField =>
    if c = '\r' then ⟨.afterCR, [], [], m.rows ++ [m.row ++ [m.field]]⟩
    else if c = '\n' then ⟨.startRecord, [], [], m.rows ++ [m.row ++ [m.field]]⟩
    else if c = ',' then ⟨.startField, [], m.row ++ [m.field], m.rows⟩
    else if c = '"' then ⟨.inQuoted, m.field, m.row, m.rows⟩
    else ⟨.inField, m.field ++ [c], m.row, m.rows⟩
  | .inField =>
    if c = '\r' then ⟨.afterCR, [], [], m.rows ++ [m.row ++ [m.field]]⟩
    else if c = '\n' then ⟨.startRecord, [], [], m.rows ++ [m.row ++ [m.field]]⟩
    else if c = ',' then ⟨.startField, [], m.row ++ [m.field], m.rows⟩
    else ⟨.inField, m.field ++ [c], m.row, m.rows⟩
  | .inQuoted =>
    if c = '"' then ⟨.quoteInQuoted, m.field, m.row, m.rows⟩
    else ⟨.inQuoted, m.field ++ [c], m.row, m.rows⟩
  | .quoteInQuoted =>
    if c = '"' then ⟨.inQuoted, m.field ++ [c], m.row, m.rows⟩
    else if c = ',' then ⟨.startField, [], m.row ++ [m.field], m.rows⟩
    else if c = '\r' then ⟨.afterCR, [], [], m.rows ++ [m.row ++ [m.field]]⟩
    else if c = '\n' then ⟨.startRecord, [], [], m.rows ++ [m.row ++ [m.field]]⟩
    else ⟨.inField, m.field ++ [c], m.row, m.rows⟩

/-- End of input: a pending field or record is flushed, matching the
non-strict reader treatment of unterminated rows and quotes. -/

def csvFinish (m : CsvM) : List (List (List Char)) :=
  match m.st with
  | .startRecord => m.rows
  | .afterCR => m.rows
  | _ => m.rows ++ [m.row ++ [m.field]]

/-- Run the reader over whole file contents, yielding rows of fields. -/

def csvParse (l : List Char) : List (List String) :=
  (csvFinish (l.foldl csvStep csvInit)).map (fun r => r.map (fun f => ⟨f⟩))

/-- Quoting test of the csv writer in the minimal quoting mode: a field
holding the delimiter, the quote character or a line break character. -/

def needsQuote (f : List Char) : Bool :=
  f.any (fun c => c = ',' ∨ c = '"' ∨ c = '\r' ∨ c = '\n')

/-- Inner escape of a quoted field: every quote character is doubled. -/

def escInner (f : List Char) : List Char :=
  (f.map (fun c => if c = '"' then ['"', '"'] else [c])).flatten

/-- Rendering of one field by the csv writer. -/

def escField (f : List Char) : List Char :=
  if needsQuote f then '"' :: escInner f ++ ['"'] else f

/-- Rendering of one record by the csv writer: fields joined with the
delimiter and closed with the carriage return and line feed pair. -/

def rowLine : List (List Char) → List Char
  | [] => ['\r', '\n']
  | [f] => escField f ++ ['\r', '\n']
  | f :: fs => escField f ++ ',' :: rowLine fs

/-- The record of input.py: one expense. -/

structure Expense where
  date : String
  amount : String
  category : String
  notes : String
deriving Repr, DecidableEq

/-- The fixed header of input.py. -/

def CSV_HEADERS : List String := ["date", "amount", "category", "notes"]

/-- The header line the DictWriter writes. -/

def headerLine : List Char := rowLine (CSV_HEADERS.map String.data)

/-- Row cells of an expense in header order. -/

def expenseFields (e : Expense) : List (List Char) :=
  [e.date.data, e.amount.data, e.category.data, e.notes.data]

/-- The functions ensure_csv_has_header and append_expense of input.py:
a missing or empty file first receives the header, then the record row
is appended. -/

def append_expense (file : Option String) (e : Expense) : Option String :=
  let base : List Char :=
    match file with
    | none => headerLine
    | some s => if s.data = [] then headerLine else s.data
  some ⟨base ++ rowLine (expenseFields e)⟩

/-- Repeated appends, one record at a time. -/

def appendAll (file : Option String) (es : List Expense) : Option String :=
  es.foldl append_expense file

/-- Index of the last header cell equal to the key; with duplicate
header names the dict built by the DictReader keeps the last binding. -/

def lastIdxOf (fns : List String) (key : String) : Option Nat :=
  match fns.reverse.findIdx? (fun f => f = key) with
  | none => none
  | some j => some (fns.length - 1 - j)

/-- Cell lookup of a DictReader row: the last header position bearing
the key, none when the row is shorter (the restval of the reader). -/

def dictGet (fns : List String) (row : List String) (key : String) : Option String :=
  match lastIdxOf fns key with
  | none => none
  | some i => row[i]?

/-- One expense as read_last_n builds it from a row: missing cells
become empty strings and every cell is stripped. -/

def mkExpense (fns : List String) (row : List String) : Expense :=
  ⟨stripS ((dictGet fns row "date").getD ""),
    stripS ((dictGet fns row "amount").getD ""),
    stripS ((dictGet fns row "category").getD ""),
    stripS ((dictGet fns row "notes").getD "")⟩

/-- The function read_last_n of input.py: empty result on a missing or
empty file or when some expected header is absent; blank rows are
skipped; the Python slice with a negative index keeps the last n rows,
and the slice with n equal to zero keeps everything. -/

def read_last_n (file : Option String) (n : Nat) : List Expense :=
  match file with
  | none => []
  | some content =>
    if content.data = [] then []
    else
      match csvParse content.data with
      | [] => []
      | header :: body =>
        if header = [] then []
        else if CSV_HEADERS.all (fun h => header.contains h) then
          let es := (body.filter (fun r => r ≠ [])).map (mkExpense header)
          if n = 0 then es else es.drop (es.length - n)
        else []

/-- Rational addition in the mkRat form, which evaluates inside the
kernel; the bridge lemma qAdd_eq below identifies it with the Mathlib
addition.  The aggregation path of the source adds floats; sums here are
exact. -/

def qAdd (a b : ℚ) : ℚ := mkRat (a.num * (b.den : Int) + b.num * (a.den : Int)) (a.den * b.den)

/-- Python sum over a list of values, an add fold from zero. -/

def qSum (l : List ℚ) : ℚ := l.foldl qAdd 0

/-- Absolute value in the mkRat form. -/

def qAbs (a : ℚ) : ℚ := mkRat a.num.natAbs a.den

/-- Division in the divInt form. -/

def qDiv (a b : ℚ) : ℚ := Rat.divInt (a.num * (b.den : Int)) ((a.den : Int) * b.num)

/-- The magnitude cutoff 1e-12 of visualize.py as an exact rational (the
float literal differs from it only beyond the 28th decimal; no claim
depends on that difference). -/

def epsTiny : ℚ := mkRat 1 1000000000000

/-- Python float literal parsing for parse_amount: the same finite
literal grammar as the decimal parser, valued exactly (the binary
rounding of the float type is presentation-level in this program). -/

def parseFloatQ (l : List Char) : Option ℚ := (parseDec l).map decValue

/-- The function parse_amount of visualize.py: the optional cell (none
for a missing cell) defaults to the empty string, is stripped, freed of
commas, and parsed as a float; empty and unparseable cells raise. -/

def parse_amount (raw : Option String) : Except String ℚ :=
  let s := (stripL (raw.getD "").data).filter (fun c => c ≠ ',')
  if s = [] then .error "amount is empty"
  else
    match parseFloatQ s with
    | none => .error "could not convert string to float"
    | some q => .ok q

/-- defaultdict accumulation totals[k] += v: add onto an existing key in
place, else append the key with the amount added onto the implicit
zero. -/

def dictAdd (totals : List (String × ℚ)) (k : String) (v : ℚ) : List (String × ℚ) :=
  if (totals.map Prod.fst).contains k then
    totals.map (fun kv => if kv.1 = k then (kv.1, qAdd kv.2 v) else kv)
  else totals ++ [(k, v)]

/-- Dictionary write big[k] = v: replace in place when the key exists,
else append. -/

def dictSet (l : List (String × ℚ)) (k : String) (v : ℚ) : List (String × ℚ) :=
  if (l.map Prod.fst).contains k then
    l.map (fun kv => if kv.1 = k then (kv.1, v) else kv)
  else l ++ [(k, v)]

/-- Normalized header key of read_csv_totals: lower case, then strip. -/

def normCol (c : String) : String := stripS (lowerS c)

/-- The cols dictionary of read_csv_totals binds each normalized header
name to the last original spelling; these are the two required
lookups. -/

def findCols (fns : List String) : Option (String × String) :=
  match fns.reverse.find? (fun c => normCol c = "category"),
      fns.reverse.find? (fun c => normCol c = "amount") with
  | some c, some a => some (c, a)
  | _, _ => none

/-- One row of the aggregation loop of read_csv_totals: blank category
rows are skipped, otherwise the amount cell must parse. -/

def totalsStep (header : List String) (catCol amtCol : String)
    (acc : List (String × ℚ)) (row : List String) : Except String (List (String × ℚ)) :=
  let cat := stripS ((dictGet header row catCol).getD "")
  if cat = "" then .ok acc
  else
    match parse_amount (dictGet header row amtCol) with
    | .error e => .error e
    | .ok amt => .ok (dictAdd acc cat amt)

/-- Leading byte order mark removed by the utf-8-sig decoding. -/

def stripBOM (l : List Char) : List Char :=
  match l with
  | '\uFEFF' :: r => r
  | _ => l

/-- The part of read_csv_totals after the header is accepted: aggregate
the non-blank rows, drop near-zero categories, fail when nothing
remains. -/

def processRows (header : List String) (body : List (List String))
    (catCol amtCol : String) : Except String (List (String × ℚ)) :=
  match (body.filter (fun r => r ≠ [])).foldlM (totalsStep header catCol amtCol) [] with
  | .error e => .error e
  | .ok totals =>
    let totals := totals.filter (fun kv => epsTiny < qAbs kv.2)
    if totals = [] then .error "No valid expense data found." else .ok totals

/-- The function read_csv_totals of visualize.py.  Every failure keeps
the source message. -/

def read_csv_totals (file : Option String) : Except String (List (String × ℚ)) :=
  match file with
  | none => .error "Input not found"
  | some content =>
    match csvParse (stripBOM content.data) with
    | [] => .error "CSV has no header row."
    | header :: body =>
      if header = [] then .error "CSV has no header row."
      else
        match findCols header with
        | none => .error "CSV must contain category and amount."
        | some (catCol, amtCol) => processRows header body catCol amtCol

/-- Stable insert for the descending sort: a later element goes after
every earlier element with an equal or larger value. -/

def insDesc (x : String × ℚ) : List (String × ℚ) → List (String × ℚ)
  | [] => [x]
  | y :: t => if y.2 ≤ x.2 then x :: y :: t else y :: insDesc x t

/-- The sorted call of group_small: a stable descending sort by value
(the source uses the builtin stable sort with the value key and the
reverse flag; only the comparator and stability are observable). -/

def sortDesc : List (String × ℚ) → List (String × ℚ)
  | [] => []
  | x :: t => insDesc x (sortDesc t)

/-- The function group_small of visualize.py. -/

def group_small (totals : List (String × ℚ)) (min_ratio : ℚ) (other_name : String) :
    List (String × ℚ) :=
  let total := qSum (totals.map Prod.snd)
  if total = 0 then totals
  else
    let p := (sortDesc totals).foldl
      (fun (acc : List (String × ℚ) × ℚ) kv =>
        if qDiv (qAbs kv.2) (qAbs total) < min_ratio then (acc.1, qAdd acc.2 kv.2)
        else (dictSet acc.1 kv.1 kv.2, acc.2))
      ([], 0)
    if epsTiny < qAbs p.2 then dictAdd p.1 other_name p.2 else p.1

example : normalize_amount "120" = .ok "120" := by decide

example : normalize_amount "120.00" = .ok "120.00" := by decide

example : normalize_amount "1,200.0" = .ok "1200.0" := by decide

example : normalize_amount "120.50" = .ok "120.5" := by decide

example : normalize_amount "0" = .error "金額必須 > 0" := by decide

example : normalize_amount "-5" = .error "金額必須 > 0" := by decide

example : normalize_amount "abc" = .error "金額格式錯誤，請輸入數字（例如 120 或 120.5）" := by decide

example : normalize_amount "  " = .error "金額不可空白" := by decide

example : normalize_date "X" "2024/06/09" = Except.ok "2024-06-09" := by decide

example : normalize_date "X" " 2025-1-2 " = Except.ok "2025-01-02" := by decide

example : normalize_date "X" "0005-01-02" = Except.ok "5-01-02" := by decide

example : normalize_date "X" "2025-02-30" =
  Except.error "日期格式錯誤，請用 YYYY-MM-DD（例如 2025-12-15）" := by decide

example : normalize_date "X" "2024-02-29" = Except.ok "2024-02-29" := by decide

example : normalize_date "X" "2025-13-01" =
  Except.error "日期格式錯誤，請用 YYYY-MM-DD（例如 2025-12-15）" := by decide

example : normalize_date "X" "TODAY" = Except.ok "X" := by decide

example : normalize_date "X" "今日" = Except.ok "X" := by decide

example : normalize_date "X" "" = Except.error "日期不可空白" := by decide

example : csvParse "a,b\n\n\nc,d".data = [["a", "b"], [], [], ["c", "d"]] := by decide

example : csvParse "a,".data = [["a", ""]] := by decide

example : csvParse "a,\"bc".data = [["a", "bc"]] := by decide

example : csvParse "a,\"b\"x,c\n".data = [["a", "bx", "c"]] := by decide

example : csvParse "x\r\n\r\ny".data = [["x"], [], ["y"]] := by decide

example : csvParse "".data = [] := by decide

example : csvParse "d,a\r\n1,\" Fo,od \"\r\n".data = [["d", "a"], ["1", " Fo,od "]] := by
  decide

example : csvParse "d\r\n\"a\"\"b\nc\"\r\n".data = [["d"], ["a\"b\nc"]] := by decide

example :
    read_last_n (appendAll none [⟨"2025-01-01", "5", " Food ", ""⟩]) 1 =
      [⟨"2025-01-01", "5", "Food", ""⟩] := by decide

example :
    read_last_n (appendAll (some "") [⟨"2025-01-01", "5", "Fo,od", "a\"b"⟩]) 1 =
      [⟨"2025-01-01", "5", "Fo,od", "a\"b"⟩] := by decide

example :
    read_last_n (some "date,amount,category,notes,extra\r\n2025-01-01,5,Food,,x\r\n") 5 =
      [⟨"2025-01-01", "5", "Food", ""⟩] := by decide

example : read_last_n (some "date,amount,category\r\n2025-01-01,5,Food\r\n") 5 = [] := by
  decide

example :
    group_small [("A", 90), ("B", 5), ("C", 5)] (mkRat 8 100) "Other" =
      [("A", 90), ("Other", 10)] := by decide

example : group_small [] (mkRat 8 100) "Other" = [] := by decide

example : group_small [("A", 5), ("B", -5)] (mkRat 8 100) "Other" = [("A", 5), ("B", -5)] := by
  decide

example :
    group_small [("A", 100), ("B", 1), ("C", -1)] (mkRat 8 100) "Other" = [("A", 100)] := by
  decide

example :
    group_small [("Other", 90), ("B", 5), ("C", 5)] (mkRat 8 100) "Other" =
      [("Other", 100)] := by decide

example :
    read_csv_totals (some "Category, AMOUNT \r\nFood,5\r\nFood,7\r\nRent,3\r\n") =
      .ok [("Food", 12), ("Rent", 3)] := by decide

example :
    read_csv_totals (some "category,amount\r\nFood,abc\r\n") =
      .error "could not convert string to float" := by decide

example :
    read_csv_totals (some "category,amount\r\nFood,\r\n") =
      .error "amount is empty" := by decide

example : read_csv_totals none = .error "Input not found" := by decide

example :
    read_csv_totals (some "date,notes\r\nx,y\r\n") =
      .error "CSV must contain category and amount." := by decide

/-- C1 (code_bug evaluation): normalize_amount does not map all spellings
of one numeric value to one canonical string.  The integral branch of the
source returns str(d) built from the unnormalized parse, so the spellings
120 and 120.00 of the value one hundred twenty give different outputs and
the trailing fractional zeros survive, against the canonical form the
docstring and the specification describe. -/

theorem c1_canonical_form_violated :
    normalize_amount "120" = Except.ok "120" ∧
    normalize_amount "120.00" = Except.ok "120.00" ∧
    normalize_amount "1,200.0" = Except.ok "1200.0" ∧
    normalize_amount "120.00" ≠ normalize_amount "120" := by
  refine ⟨by decide, by decide, by decide, by decide⟩

/-- C8: normalize_amount fails with a validation error on every input
that is empty after stripping, fails to parse as a decimal after comma
removal, or parses to a value at most zero. -/

theorem c8_normalize_amount_rejects (s : String)
    (h : stripL s.data = [] ∨
      parseDec ((stripL s.data).filter (fun c => c ≠ ',')) = none ∨
      ∃ d, parseDec ((stripL s.data).filter (fun c => c ≠ ',')) = some d ∧ decValue d ≤ 0) :
    ∃ e, normalize_amount s = Except.error e := by
  rcases h with h | h | ⟨d, hd, hv⟩
  · exact ⟨_, by simp only [normalize_amount, h, reduceIte]; rfl⟩
  · by_cases h0 : stripL s.data = []
    · exact ⟨_, by simp only [normalize_amount, h0, reduceIte]; rfl⟩
    · exact ⟨_, by simp only [normalize_amount, h0, reduceIte, h]; rfl⟩
  · by_cases h0 : stripL s.data = []
    · exact ⟨_, by simp only [normalize_amount, h0, reduceIte]; rfl⟩
    · exact ⟨_, by simp only [normalize_amount, h0, reduceIte, hd, if_pos hv]; rfl⟩

/-- C8 witness: the two spec examples, zero and a negative amount, are
rejected through the theorem applied at concrete inputs. -/

theorem c8_normalize_amount_rejects_witness :
    (∃ e, normalize_amount "0" = Except.error e) ∧
    (∃ e, normalize_amount "-5" = Except.error e) :=
  ⟨c8_normalize_amount_rejects "0"
      (Or.inr (Or.inr ⟨⟨false, 0, 0⟩, by decide, by decide⟩)),
    c8_normalize_amount_rejects "-5"
      (Or.inr (Or.inr ⟨⟨true, 5, 0⟩, by decide, by decide⟩))⟩

theorem digitVal_digitChar {k : Nat} (h : k < 10) : digitVal (Nat.digitChar k) = k := by
  interval_cases k <;> decide

theorem isDig_digitChar {k : Nat} (h : k < 10) : isDig (Nat.digitChar k) = true := by
  interval_cases k <;> decide

theorem pySpace_digitChar {k : Nat} (h : k < 10) : pySpace (Nat.digitChar k) = false := by
  interval_cases k <;> decide

theorem digitChar_ne_slash {k : Nat} (h : k < 10) : Nat.digitChar k ≠ '/' := by
  interval_cases k <;> decide

theorem digitVal_le_of_isDig {c : Char} (h : isDig c = true) : digitVal c ≤ 9 := by
  simp only [isDig, decide_eq_true_eq] at h
  unfold digitVal
  omega

theorem parse4Digits_bound {l r : List Char} {y : Nat}
    (h : parse4Digits l = some (y, r)) : y ≤ 9999 := by
  match l with
  | [] => simp [parse4Digits] at h
  | [a] => simp [parse4Digits] at h
  | [a, b] => simp [parse4Digits] at h
  | [a, b, c] => simp [parse4Digits] at h
  | a :: b :: c :: d :: t =>
    simp only [parse4Digits] at h
    by_cases hd : isDig a = true ∧ isDig b = true ∧ isDig c = true ∧ isDig d = true
    · rw [if_pos hd] at h
      injection h with h2
      have ha := digitVal_le_of_isDig hd.1
      have hb := digitVal_le_of_isDig hd.2.1
      have hc := digitVal_le_of_isDig hd.2.2.1
      have hdd := digitVal_le_of_isDig hd.2.2.2
      have hy : ((digitVal a * 10 + digitVal b) * 10 + digitVal c) * 10 + digitVal d = y :=
        congrArg Prod.fst h2
      omega
    · rw [if_neg hd] at h
      exact absurd h (by simp)

theorem parse4Digits_fmt {y : Nat} (h1 : 1000 ≤ y) (h2 : y ≤ 9999) (rest : List Char) :
    parse4Digits (yearChars y ++ rest) = some (y, rest) := by
  have e1 : y / 1000 < 10 := by omega
  have e2 : y / 100 % 10 < 10 := by omega
  have e3 : y / 10 % 10 < 10 := by omega
  have e4 : y % 10 < 10 := by omega
  unfold yearChars
  rw [if_pos h1]
  show parse4Digits (_ :: _ :: _ :: _ :: rest) = _
  simp only [parse4Digits]
  rw [if_pos ⟨isDig_digitChar e1, isDig_digitChar e2, isDig_digitChar e3, isDig_digitChar e4⟩]
  rw [digitVal_digitChar e1, digitVal_digitChar e2, digitVal_digitChar e3, digitVal_digitChar e4]
  have : ((y / 1000 * 10 + y / 100 % 10) * 10 + y / 10 % 10) * 10 + y % 10 = y := by omega
  rw [this]

theorem monthAlts_fmt {m : Nat} (h1 : 1 ≤ m) (h2 : m ≤ 12) (rest : List Char) :
    ∃ tl, monthAlts (twoChars m ++ rest) = (m, rest) :: tl := by
  interval_cases m <;> exact ⟨_, rfl⟩

theorem dayAlts_fmt {d : Nat} (h1 : 1 ≤ d) (h2 : d ≤ 31) (rest : List Char) :
    ∃ tl, dayAlts (twoChars d ++ rest) = (d, rest) :: tl := by
  interval_cases d <;> exact ⟨_, rfl⟩

theorem strptimeYmd_fmt {y m d : Nat} (hy1 : 1000 ≤ y) (hy2 : y ≤ 9999)
    (hm1 : 1 ≤ m) (hm2 : m ≤ 12) (hd1 : 1 ≤ d) (hd2 : d ≤ daysInMonth y m) :
    strptimeYmd (fmtDate y m d).data = some (y, m, d) := by
  have hd31 : d ≤ 31 := by
    have : daysInMonth y m ≤ 31 := by
      unfold daysInMonth
      split
      · split <;> omega
      · split <;> omega
    omega
  have hdata : (fmtDate y m d).data =
      yearChars y ++ '-' :: (twoChars m ++ '-' :: (twoChars d ++ [])) := by
    show yearChars y ++ '-' :: twoChars m ++ '-' :: twoChars d = _
    simp
  obtain ⟨tlm, hm⟩ := monthAlts_fmt hm1 hm2 ('-' :: (twoChars d ++ []))
  obtain ⟨tld, hd⟩ := dayAlts_fmt hd1 hd31 ([] : List Char)
  simp only [strptimeYmd, ymdMatch, hdata, parse4Digits_fmt hy1 hy2, hm, hd, List.findSome?]
  show (if 1 ≤ y ∧ 1 ≤ m ∧ m ≤ 12 ∧ 1 ≤ d ∧ d ≤ daysInMonth y m then
      some (y, m, d) else none) = some (y, m, d)
  rw [if_pos ⟨by omega, hm1, hm2, hd1, hd2⟩]

theorem ymdMatch_year_bound {l : List Char} {y m d : Nat}
    (h : ymdMatch l = some (y, m, d)) : y ≤ 9999 := by
  unfold ymdMatch at h
  split at h
  · exact absurd h (by simp)
  · rename_i y1 r1 hp
    split at h
    · obtain ⟨pm, _, hk⟩ := List.exists_of_findSome?_eq_some h
      split at hk
      · obtain ⟨pd, _, hk2⟩ := List.exists_of_findSome?_eq_some hk
        split at hk2
        · have hy : y1 = y := by
            have := Option.some.injEq .. ▸ hk2
            exact congrArg Prod.fst this
          exact hy ▸ parse4Digits_bound hp
        · exact absurd hk2 (by simp)
      · exact absurd hk (by simp)
    · exact absurd h (by simp)

theorem strptimeYmd_bounds {l : List Char} {y m d : Nat}
    (h : strptimeYmd l = some (y, m, d)) :
    1 ≤ y ∧ y ≤ 9999 ∧ 1 ≤ m ∧ m ≤ 12 ∧ 1 ≤ d ∧ d ≤ daysInMonth y m := by
  unfold strptimeYmd at h
  split at h
  · exact absurd h (by simp)
  · rename_i y0 m0 d0 hm
    split at h <;> rename_i hc
    · have he : y0 = y ∧ m0 = m ∧ d0 = d := by
        have := Option.some.injEq .. ▸ h
        exact ⟨congrArg Prod.fst this, congrArg (fun p => p.2.1) this,
          congrArg (fun p => p.2.2) this⟩
      obtain ⟨h1, h2, h3⟩ := he
      subst h1 h2 h3
      exact ⟨hc.1, ymdMatch_year_bound hm, hc.2.1, hc.2.2.1, hc.2.2.2.1, hc.2.2.2.2⟩
    · exact absurd h (by simp)

theorem dropWhile_eq_self_of_all {p : Char → Bool} {l : List Char}
    (h : ∀ c ∈ l, p c = false) : l.dropWhile p = l := by
  cases l with
  | nil => rfl
  | cons a t => rw [List.dropWhile_cons, h a (by simp)]; simp

theorem stripL_eq_self {l : List Char} (h : ∀ c ∈ l, pySpace c = false) : stripL l = l := by
  unfold stripL lstripL rstripL
  rw [dropWhile_eq_self_of_all h,
    dropWhile_eq_self_of_all (fun c hc => h c (List.mem_reverse.mp hc)),
    List.reverse_reverse]

theorem fmtDate_data {y m d : Nat} (hy : 1000 ≤ y) :
    (fmtDate y m d).data =
      [Nat.digitChar (y / 1000), Nat.digitChar (y / 100 % 10), Nat.digitChar (y / 10 % 10),
        Nat.digitChar (y % 10), '-', Nat.digitChar (m / 10), Nat.digitChar (m % 10), '-',
        Nat.digitChar (d / 10), Nat.digitChar (d % 10)] := by
  show yearChars y ++ '-' :: twoChars m ++ '-' :: twoChars d = _
  unfold yearChars twoChars
  rw [if_pos hy]
  rfl

theorem fmtDate_chars {y m d : Nat} (hy1 : 1000 ≤ y) (hy2 : y ≤ 9999)
    (hm : m ≤ 12) (hd : d ≤ 31) :
    ∀ c ∈ (fmtDate y m d).data, pySpace c = false ∧ c ≠ '/' := by
  have e1 : y / 1000 < 10 := by omega
  have e2 : y / 100 % 10 < 10 := by omega
  have e3 : y / 10 % 10 < 10 := by omega
  have e4 : y % 10 < 10 := by omega
  have e5 : m / 10 < 10 := by omega
  have e6 : m % 10 < 10 := by omega
  have e7 : d / 10 < 10 := by omega
  have e8 : d % 10 < 10 := by omega
  intro c hc
  rw [fmtDate_data hy1] at hc
  simp only [List.mem_cons, List.not_mem_nil, or_false] at hc
  rcases hc with h | h | h | h | h | h | h | h | h | h <;> subst h
  · exact ⟨pySpace_digitChar e1, digitChar_ne_slash e1⟩
  · exact ⟨pySpace_digitChar e2, digitChar_ne_slash e2⟩
  · exact ⟨pySpace_digitChar e3, digitChar_ne_slash e3⟩
  · exact ⟨pySpace_digitChar e4, digitChar_ne_slash e4⟩
  · exact ⟨by decide, by decide⟩
  · exact ⟨pySpace_digitChar e5, digitChar_ne_slash e5⟩
  · exact ⟨pySpace_digitChar e6, digitChar_ne_slash e6⟩
  · exact ⟨by decide, by decide⟩
  · exact ⟨pySpace_digitChar e7, digitChar_ne_slash e7⟩
  · exact ⟨pySpace_digitChar e8, digitChar_ne_slash e8⟩

theorem fmtDate_len {y m d : Nat} (hy : 1000 ≤ y) : (fmtDate y m d).data.length = 10 := by
  rw [fmtDate_data hy]
  rfl

theorem fmtDate_not_today {y m d : Nat} (hy : 1000 ≤ y) :
    isTodayWord (fmtDate y m d) = false := by
  have hlen := fmtDate_len (m := m) (d := d) hy
  unfold isTodayWord
  simp only [Bool.or_eq_false_iff, decide_eq_false_iff_not]
  refine ⟨⟨⟨?_, ?_⟩, ?_⟩, ?_⟩ <;> intro heq <;>
    have hld := congrArg (fun t : String => t.data.length) heq <;>
    simp only [] at hld
  · have : (lowerS (fmtDate y m d)).data.length = 10 := by
      show ((fmtDate y m d).data.map lowerChar).length = 10
      rw [List.length_map, hlen]
    rw [this] at hld
    exact absurd hld (by decide)
  · have : (lowerS (fmtDate y m d)).data.length = 10 := by
      show ((fmtDate y m d).data.map lowerChar).length = 10
      rw [List.length_map, hlen]
    rw [this] at hld
    exact absurd hld (by decide)
  · rw [hlen] at hld
    exact absurd hld (by decide)
  · rw [hlen] at hld
    exact absurd hld (by decide)

theorem fmtDate_ne_empty {y m d : Nat} (hy : 1000 ≤ y) : fmtDate y m d ≠ "" := by
  intro h
  have := congrArg (fun t : String => t.data.length) h
  simp only [] at this
  rw [fmtDate_len hy] at this
  exact absurd this (by decide)

theorem stripS_fmtDate {y m d : Nat} (hy1 : 1000 ≤ y) (hy2 : y ≤ 9999)
    (hm : m ≤ 12) (hd : d ≤ 31) : stripS (fmtDate y m d) = fmtDate y m d := by
  unfold stripS
  rw [stripL_eq_self (fun c hc => (fmtDate_chars hy1 hy2 hm hd c hc).1)]

theorem dashify_fmtDate {y m d : Nat} (hy1 : 1000 ≤ y) (hy2 : y ≤ 9999)
    (hm : m ≤ 12) (hd : d ≤ 31) :
    (fmtDate y m d).data.map (fun c => if c = '/' then '-' else c) = (fmtDate y m d).data := by
  have : ∀ c ∈ (fmtDate y m d).data, (if c = '/' then '-' else c) = id c := by
    intro c hc
    rw [if_neg (fmtDate_chars hy1 hy2 hm hd c hc).2]
    rfl
  rw [List.map_congr_left this, List.map_id]

/-- C7 (counterexample): normalize_date is not idempotent on every valid
date string in the YYYY-MM-DD form.  A year below 1000 is printed by the
strftime year directive without padding, and the four-digit year pattern
of strptime then rejects the output of the first normalization. -/

theorem c7_counterexample :
    normalize_date "2025-10-12" "0005-01-02" = Except.ok "5-01-02" ∧
    normalize_date "2025-10-12" "5-01-02" =
      Except.error "日期格式錯誤，請用 YYYY-MM-DD（例如 2025-12-15）" :=
  ⟨by decide, by decide⟩

/-- C7 (amended): for every explicit date string that normalize_date
accepts with a year of at least 1000 — which covers all four-digit
year spellings from 1000-01-01 on, in either separator style —
normalizing the output returns the output itself. -/

theorem c7_normalize_date_idempotent (today s : String) (y m d : Nat)
    (hw : isTodayWord (stripS s) = false)
    (h : strptimeYmd ((stripS s).data.map (fun c => if c = '/' then '-' else c)) =
      some (y, m, d))
    (hy : 1000 ≤ y) :
    normalize_date today s = Except.ok (fmtDate y m d) ∧
    normalize_date today (fmtDate y m d) = Except.ok (fmtDate y m d) := by
  obtain ⟨b1, b2, b3, b4, b5, b6⟩ := strptimeYmd_bounds h
  have hd31 : d ≤ 31 := by
    have : daysInMonth y m ≤ 31 := by
      unfold daysInMonth
      split
      · split <;> omega
      · split <;> omega
    omega
  have hne : ¬ stripS s = "" := by
    intro h0
    rw [h0] at h
    have h1 : strptimeYmd (("" : String).data.map (fun c => if c = '/' then '-' else c)) =
        none := rfl
    rw [h1] at h
    exact Option.noConfusion h
  constructor
  · simp only [normalize_date, hne, reduceIte, hw, Bool.false_eq_true, h]
  · have t2 := fmtDate_not_today (m := m) (d := d) hy
    have t3 := stripS_fmtDate hy b2 b4 hd31
    have t4 : ¬ fmtDate y m d = "" := fmtDate_ne_empty hy
    have t5 := dashify_fmtDate hy b2 b4 hd31
    simp only [normalize_date, t3, t4, reduceIte, t2, Bool.false_eq_true, t5,
      strptimeYmd_fmt hy b2 b3 b4 b5 b6]

/-- C7 witness: the amended idempotence applied at a slash-separated
concrete date. -/

theorem c7_normalize_date_idempotent_witness :
    normalize_date "2025-01-01" "2024/06/09" = Except.ok (fmtDate 2024 6 9) ∧
    normalize_date "2025-01-01" (fmtDate 2024 6 9) = Except.ok (fmtDate 2024 6 9) :=
  c7_normalize_date_idempotent "2025-01-01" "2024/06/09" 2024 6 9
    (by decide) (by decide) (by decide)

theorem csv_run_plain (f : List Char)
    (hf : ∀ c ∈ f, ¬(c = ',' ∨ c = '"' ∨ c = '\r' ∨ c = '\n')) :
    ∀ (acc : List Char) (row : List (List Char)) (rows : List (List (List Char)))
      (rest : List Char),
      (f ++ rest).foldl csvStep ⟨.inField, acc, row, rows⟩ =
        rest.foldl csvStep ⟨.inField, acc ++ f, row, rows⟩ := by
  induction f with
  | nil => intro acc row rows rest; simp
  | cons c t ih =>
    intro acc row rows rest
    have hc := hf c (by simp)
    push_neg at hc
    obtain ⟨h1, h2, h3, h4⟩ := hc
    rw [List.cons_append, List.foldl_cons]
    have hstep : csvStep ⟨.inField, acc, row, rows⟩ c = ⟨.inField, acc ++ [c], row, rows⟩ := by
      simp [csvStep, h1, h2, h3, h4]
    rw [hstep, ih (fun d hd => hf d (by simp [hd]))]
    simp

theorem csv_run_quoted (f : List Char) :
    ∀ (acc : List Char) (row : List (List Char)) (rows : List (List (List Char)))
      (rest : List Char),
      (escInner f ++ rest).foldl csvStep ⟨.inQuoted, acc, row, rows⟩ =
        rest.foldl csvStep ⟨.inQuoted, acc ++ f, row, rows⟩ := by
  induction f with
  | nil => intro acc row rows rest; simp [escInner]
  | cons c t ih =>
    intro acc row rows rest
    have hin : escInner (c :: t) = (if c = '"' then ['"', '"'] else [c]) ++ escInner t := by
      simp [escInner]
    rw [hin]
    by_cases hq : c = '"'
    · subst hq
      rw [if_pos rfl]
      rw [List.append_assoc]
      rw [show (['"', '"'] : List Char) ++ (escInner t ++ rest) =
        '"' :: '"' :: (escInner t ++ rest) from rfl]
      rw [List.foldl_cons, List.foldl_cons]
      rw [show csvStep ⟨.inQuoted, acc, row, rows⟩ '"' = ⟨.quoteInQuoted, acc, row, rows⟩ from
        by simp [csvStep]]
      rw [show csvStep ⟨.quoteInQuoted, acc, row, rows⟩ '"' =
        ⟨.inQuoted, acc ++ ['"'], row, rows⟩ from by simp [csvStep]]
      rw [ih]
      simp
    · rw [if_neg hq]
      rw [List.append_assoc]
      rw [show ([c] : List Char) ++ (escInner t ++ rest) = c :: (escInner t ++ rest) from rfl]
      rw [List.foldl_cons]
      rw [show csvStep ⟨.inQuoted, acc, row, rows⟩ c = ⟨.inQuoted, acc ++ [c], row, rows⟩ from
        by simp [csvStep, hq]]
      rw [ih]
      simp

theorem needsQuote_false_mem {f : List Char} (hq : needsQuote f = false) :
    ∀ c ∈ f, ¬(c = ',' ∨ c = '"' ∨ c = '\r' ∨ c = '\n') := by
  intro c hc
  have := List.any_eq_false.mp hq c hc
  simpa using this

theorem csv_field_block (f : List Char) (row : List (List Char))
    (rows : List (List (List Char))) (rest : List Char) :
    (escField f ++ ',' :: rest).foldl csvStep ⟨.startField, [], row, rows⟩ =
      rest.foldl csvStep ⟨.startField, [], row ++ [f], rows⟩ := by
  unfold escField
  by_cases hq : needsQuote f
  · rw [if_pos hq]
    rw [show ('"' :: escInner f ++ ['"']) ++ ',' :: rest =
      '"' :: (escInner f ++ '"' :: ',' :: rest) from by simp]
    rw [List.foldl_cons]
    rw [show csvStep ⟨.startField, [], row, rows⟩ '"' = ⟨.inQuoted, [], row, rows⟩ from
      by simp [csvStep]]
    rw [csv_run_quoted]
    rw [List.foldl_cons]
    rw [show csvStep ⟨.inQuoted, [] ++ f, row, rows⟩ '"' =
      ⟨.quoteInQuoted, [] ++ f, row, rows⟩ from by simp [csvStep]]
    rw [List.foldl_cons]
    rw [show csvStep ⟨.quoteInQuoted, [] ++ f, row, rows⟩ ',' =
      ⟨.startField, [], row ++ [[] ++ f], rows⟩ from by simp [csvStep]]
    simp
  · rw [if_neg hq]
    have hf := needsQuote_false_mem (Bool.eq_false_iff.mpr hq)
    cases f with
    | nil =>
      rw [List.nil_append, List.foldl_cons]
      rw [show csvStep ⟨.startField, [], row, rows⟩ ',' =
        ⟨.startField, [], row ++ [[]], rows⟩ from by simp [csvStep]]
    | cons c t =>
      have hc := hf c (by simp)
      push_neg at hc
      obtain ⟨h1, h2, h3, h4⟩ := hc
      rw [List.cons_append, List.foldl_cons]
      rw [show csvStep ⟨.startField, [], row, rows⟩ c = ⟨.inField, [c], row, rows⟩ from
        by simp [csvStep, h1, h2, h3, h4]]
      rw [csv_run_plain t (fun d hd => hf d (by simp [hd]))]
      rw [List.foldl_cons]
      rw [show csvStep ⟨.inField, [c] ++ t, row, rows⟩ ',' =
        ⟨.startField, [], row ++ [[c] ++ t], rows⟩ from by simp [csvStep]]
      simp

theorem csv_field_end (f : List Char) (row : List (List Char))
    (rows : List (List (List Char))) (rest : List Char) :
    (escField f ++ '\r' :: '\n' :: rest).foldl csvStep ⟨.startField, [], row, rows⟩ =
      rest.foldl csvStep ⟨.startRecord, [], [], rows ++ [row ++ [f]]⟩ := by
  unfold escField
  by_cases hq : needsQuote f
  · rw [if_pos hq]
    rw [show ('"' :: escInner f ++ ['"']) ++ '\r' :: '\n' :: rest =
      '"' :: (escInner f ++ '"' :: '\r' :: '\n' :: rest) from by simp]
    rw [List.foldl_cons]
    rw [show csvStep ⟨.startField, [], row, rows⟩ '"' = ⟨.inQuoted, [], row, rows⟩ from
      by simp [csvStep]]
    rw [csv_run_quoted]
    rw [List.foldl_cons]
    rw [show csvStep ⟨.inQuoted, [] ++ f, row, rows⟩ '"' =
      ⟨.quoteInQuoted, [] ++ f, row, rows⟩ from by simp [csvStep]]
    rw [List.foldl_cons]
    rw [show csvStep ⟨.quoteInQuoted, [] ++ f, row, rows⟩ '\r' =
      ⟨.afterCR, [], [], rows ++ [row ++ [[] ++ f]]⟩ from by simp [csvStep]]
    rw [List.foldl_cons]
    rw [show csvStep ⟨.afterCR, [], [], rows ++ [row ++ [[] ++ f]]⟩ '\n' =
      ⟨.startRecord, [], [], rows ++ [row ++ [[] ++ f]]⟩ from by simp [csvStep]]
    simp
  · rw [if_neg hq]
    have hf := needsQuote_false_mem (Bool.eq_false_iff.mpr hq)
    cases f with
    | nil =>
      rw [List.nil_append, List.foldl_cons]
      rw [show csvStep ⟨.startField, [], row, rows⟩ '\r' =
        ⟨.afterCR, [], [], rows ++ [row ++ [[]]]⟩ from by simp [csvStep]]
      rw [List.foldl_cons]
      rw [show csvStep ⟨.afterCR, [], [], rows ++ [row ++ [[]]]⟩ '\n' =
        ⟨.startRecord, [], [], rows ++ [row ++ [[]]]⟩ from by simp [csvStep]]
    | cons c t =>
      have hc := hf c (by simp)
      push_neg at hc
      obtain ⟨h1, h2, h3, h4⟩ := hc
      rw [List.cons_append, List.foldl_cons]
      rw [show csvStep ⟨.startField, [], row, rows⟩ c = ⟨.inField, [c], row, rows⟩ from
        by simp [csvStep, h1, h2, h3, h4]]
      rw [csv_run_plain t (fun d hd => hf d (by simp [hd]))]
      rw [List.foldl_cons]
      rw [show csvStep ⟨.inField, [c] ++ t, row, rows⟩ '\r' =
        ⟨.afterCR, [], [], rows ++ [row ++ [[c] ++ t]]⟩ from by simp [csvStep]]
      rw [List.foldl_cons]
      rw [show csvStep ⟨.afterCR, [], [], rows ++ [row ++ [[c] ++ t]]⟩ '\n' =
        ⟨.startRecord, [], [], rows ++ [row ++ [[c] ++ t]]⟩ from by simp [csvStep]]
      simp

theorem csv_row_run (fs : List (List Char)) (hne : fs ≠ []) :
    ∀ (row : List (List Char)) (rows : List (List (List Char))) (rest : List Char),
      (rowLine fs ++ rest).foldl csvStep ⟨.startField, [], row, rows⟩ =
        rest.foldl csvStep ⟨.startRecord, [], [], rows ++ [row ++ fs]⟩ := by
  induction fs with
  | nil => exact absurd rfl hne
  | cons f t ih =>
    intro row rows rest
    cases t with
    | nil =>
      rw [show rowLine [f] = escField f ++ ['\r', '\n'] from rfl]
      rw [show (escField f ++ ['\r', '\n']) ++ rest = escField f ++ '\r' :: '\n' :: rest from
        by simp]
      exact csv_field_end f row rows rest
    | cons f2 t2 =>
      rw [show rowLine (f :: f2 :: t2) = escField f ++ ',' :: rowLine (f2 :: t2) from rfl]
      rw [show (escField f ++ ',' :: rowLine (f2 :: t2)) ++ rest =
        escField f ++ ',' :: (rowLine (f2 :: t2) ++ rest) from by simp]
      rw [csv_field_block, ih (by simp)]
      simp

theorem csvStep_SR_eq_SF (rows : List (List (List Char))) (c : Char)
    (h1 : c ≠ '\r') (h2 : c ≠ '\n') :
    csvStep ⟨.startRecord, [], [], rows⟩ c = csvStep ⟨.startField, [], [], rows⟩ c := by
  by_cases hc : c = ','
  · subst hc; simp [csvStep, csvStepSR]
  · by_cases hq : c = '"'
    · subst hq; simp [csvStep, csvStepSR]
    · simp [csvStep, csvStepSR, h1, h2, hc, hq]

theorem escField_head_not_crlf (f : List Char) {c : Char} {cs : List Char}
    (h : escField f = c :: cs) : c ≠ '\r' ∧ c ≠ '\n' := by
  unfold escField at h
  by_cases hq : needsQuote f
  · rw [if_pos hq] at h
    have : c = '"' := (List.cons.injEq .. ▸ h.symm).1
    subst this
    exact ⟨by decide, by decide⟩
  · rw [if_neg hq] at h
    have hf := needsQuote_false_mem (Bool.eq_false_iff.mpr hq)
    have hc : c ∈ f := by rw [h]; simp
    have := hf c hc
    push_neg at this
    exact ⟨this.2.2.1, this.2.2.2⟩

theorem csv_record_run (fs : List (List Char)) (h2 : 2 ≤ fs.length) :
    ∀ (rows : List (List (List Char))) (rest : List Char),
      (rowLine fs ++ rest).foldl csvStep ⟨.startRecord, [], [], rows⟩ =
        rest.foldl csvStep ⟨.startRecord, [], [], rows ++ [fs]⟩ := by
  match fs, h2 with
  | f1 :: f2 :: t, _ =>
    intro rows rest
    rw [show rowLine (f1 :: f2 :: t) = escField f1 ++ ',' :: rowLine (f2 :: t) from rfl]
    cases hesc : escField f1 with
    | nil =>
      have hf1 : f1 = [] := by
        unfold escField at hesc
        by_cases hq : needsQuote f1
        · rw [if_pos hq] at hesc; exact absurd hesc (by simp)
        · rw [if_neg hq] at hesc; exact hesc
      subst hf1
      rw [show (([] : List Char) ++ ',' :: rowLine (f2 :: t)) ++ rest =
        ',' :: (rowLine (f2 :: t) ++ rest) from by simp]
      rw [List.foldl_cons]
      rw [show csvStep ⟨.startRecord, [], [], rows⟩ ',' =
        ⟨.startField, [], [[]], rows⟩ from by simp [csvStep, csvStepSR]]
      rw [csv_row_run (f2 :: t) (by simp)]
      simp
    | cons c cs =>
      obtain ⟨hc1, hc2⟩ := escField_head_not_crlf f1 hesc
      rw [show ((c :: cs) ++ ',' :: rowLine (f2 :: t)) ++ rest =
        c :: (cs ++ ',' :: (rowLine (f2 :: t) ++ rest)) from by simp]
      rw [List.foldl_cons, csvStep_SR_eq_SF rows c hc1 hc2, ← List.foldl_cons]
      rw [show c :: (cs ++ ',' :: (rowLine (f2 :: t) ++ rest)) =
        escField f1 ++ ',' :: (rowLine (f2 :: t) ++ rest) from by rw [hesc]; simp]
      rw [csv_field_block, csv_row_run (f2 :: t) (by simp)]
      simp

theorem csv_file_run (records : List (List (List Char)))
    (hall : ∀ r ∈ records, 2 ≤ r.length) :
    ∀ rows : List (List (List Char)),
      ((records.map rowLine).flatten).foldl csvStep ⟨.startRecord, [], [], rows⟩ =
        ⟨.startRecord, [], [], rows ++ records⟩ := by
  induction records with
  | nil => intro rows; simp
  | cons r t ih =>
    intro rows
    rw [List.map_cons, List.flatten_cons]
    rw [csv_record_run r (hall r (by simp))]
    rw [ih (fun x hx => hall x (by simp [hx]))]
    simp

theorem csvParse_writer (records : List (List (List Char)))
    (hall : ∀ r ∈ records, 2 ≤ r.length) :
    csvParse ((records.map rowLine).flatten) =
      records.map (fun r => r.map (fun f => (⟨f⟩ : String))) := by
  unfold csvParse csvInit
  rw [csv_file_run records hall []]
  rfl

theorem appendAll_some (es : List Expense) :
    ∀ (content : List Char), content ≠ [] →
      appendAll (some ⟨content⟩) es =
        some ⟨content ++ ((es.map (fun e => rowLine (expenseFields e))).flatten)⟩ := by
  induction es with
  | nil => intro content hc; simp [appendAll]
  | cons e t ih =>
    intro content hc
    have h1 : append_expense (some ⟨content⟩) e =
        some ⟨content ++ rowLine (expenseFields e)⟩ := by
      simp [append_expense, hc]
    show appendAll (append_expense (some ⟨content⟩) e) t = _
    rw [h1, ih (content ++ rowLine (expenseFields e)) (by simp [hc])]
    simp

theorem headerLine_ne_nil : headerLine ≠ [] := by decide

theorem appendAll_from_empty (es : List Expense) (file₀ : Option String)
    (h0 : file₀ = none ∨ file₀ = some "") (hne : es ≠ []) :
    appendAll file₀ es =
      some ⟨headerLine ++ ((es.map (fun e => rowLine (expenseFields e))).flatten)⟩ := by
  match es, hne with
  | e :: t, _ =>
    have h1 : append_expense file₀ e = some ⟨headerLine ++ rowLine (expenseFields e)⟩ := by
      rcases h0 with h | h <;> subst h <;> simp [append_expense]
    have h2 : headerLine ++ rowLine (expenseFields e) ≠ [] := by
      intro h
      exact headerLine_ne_nil (List.append_eq_nil.mp h).1
    show appendAll (append_expense file₀ e) t = _
    rw [h1, appendAll_some t (headerLine ++ rowLine (expenseFields e)) h2]
    simp

theorem read_last_n_content (content : List Char) (n : Nat) :
    read_last_n (some ⟨content⟩) n =
      (if content = [] then []
        else match csvParse content with
        | [] => []
        | header :: body =>
          if header = [] then []
          else if CSV_HEADERS.all (fun h => header.contains h) then
            let es := (body.filter (fun r => r ≠ [])).map (mkExpense header)
            if n = 0 then es else es.drop (es.length - n)
          else []) := rfl

theorem mkExpense_written (e : Expense) :
    mkExpense CSV_HEADERS ((expenseFields e).map (fun f => (⟨f⟩ : String))) =
      ⟨stripS e.date, stripS e.amount, stripS e.category, stripS e.notes⟩ := rfl

/-- C2 (counterexample): appending a record whose category field carries
surrounding blanks and reading it back yields the stripped record, not
the appended one, since read_last_n strips every cell. -/

theorem c2_counterexample :
    read_last_n (appendAll none [⟨"2025-01-01", "5", " Food ", ""⟩]) 1 ≠
      [⟨"2025-01-01", "5", " Food ", ""⟩] ∧
    read_last_n (appendAll none [⟨"2025-01-01", "5", " Food ", ""⟩]) 1 =
      [⟨"2025-01-01", "5", "Food", ""⟩] := ⟨by decide, by decide⟩

/-- C2 (amended): starting from a missing or empty file, appending
records whose four fields carry no surrounding whitespace and then
asking for the most recent count many records returns exactly those
records in order.  Fields may still hold commas, quotes and line
breaks; the writer quoting and the reader state machine restore them. -/

theorem c2_append_read_roundtrip (es : List Expense) (file₀ : Option String)
    (h0 : file₀ = none ∨ file₀ = some "")
    (hs : ∀ e ∈ es, stripS e.date = e.date ∧ stripS e.amount = e.amount ∧
      stripS e.category = e.category ∧ stripS e.notes = e.notes) :
    read_last_n (appendAll file₀ es) es.length = es := by
  cases hes : es with
  | nil => rcases h0 with h | h <;> subst h <;> rfl
  | cons e0 t0 =>
    rw [← hes]
    have hne : es ≠ [] := by rw [hes]; simp
    rw [appendAll_from_empty es file₀ h0 hne]
    have hrecords : headerLine ++ ((es.map (fun e => rowLine (expenseFields e))).flatten) =
        (((CSV_HEADERS.map String.data) :: es.map expenseFields).map rowLine).flatten := by
      rw [List.map_cons, List.flatten_cons, List.map_map]
      rfl
    have hall : ∀ r ∈ (CSV_HEADERS.map String.data) :: es.map expenseFields, 2 ≤ r.length := by
      intro r hr
      rcases List.mem_cons.mp hr with h | h
      · subst h; decide
      · obtain ⟨x, _, hx⟩ := List.mem_map.mp h
        rw [← hx]
        simp [expenseFields]
    have hparse : csvParse (headerLine ++
        ((es.map (fun e => rowLine (expenseFields e))).flatten)) =
        CSV_HEADERS :: es.map (fun e => (expenseFields e).map (fun f => (⟨f⟩ : String))) := by
      rw [hrecords, csvParse_writer _ hall, List.map_cons]
      congr 1
      rw [List.map_map]
      rfl
    have hcontent : (headerLine ++
        ((es.map (fun e => rowLine (expenseFields e))).flatten)) ≠ [] := by
      intro h
      exact headerLine_ne_nil (List.append_eq_nil.mp h).1
    rw [read_last_n_content, if_neg hcontent, hparse]
    show (let es1 := ((es.map (fun e => (expenseFields e).map
        (fun f => (⟨f⟩ : String)))).filter (fun r => r ≠ [])).map (mkExpense CSV_HEADERS)
      if es.length = 0 then es1 else es1.drop (es1.length - es.length)) = es
    have hfilter : (es.map (fun e => (expenseFields e).map
        (fun f => (⟨f⟩ : String)))).filter (fun r => r ≠ []) =
        es.map (fun e => (expenseFields e).map (fun f => (⟨f⟩ : String))) := by
      rw [List.filter_eq_self]
      intro r hr
      obtain ⟨x, _, hx⟩ := List.mem_map.mp hr
      rw [← hx]
      simp [expenseFields]
    simp only [hfilter, List.map_map]
    have hmap : es.map ((mkExpense CSV_HEADERS) ∘
        (fun e => (expenseFields e).map (fun f => (⟨f⟩ : String)))) = es := by
      have hpt : ∀ e ∈ es, ((mkExpense CSV_HEADERS) ∘
          (fun e => (expenseFields e).map (fun f => (⟨f⟩ : String)))) e = id e := by
        intro e he
        obtain ⟨d1, d2, d3, d4⟩ := hs e he
        show mkExpense CSV_HEADERS ((expenseFields e).map (fun f => (⟨f⟩ : String))) = e
        rw [mkExpense_written, d1, d2, d3, d4]
      rw [List.map_congr_left hpt, List.map_id]
    rw [hmap]
    have hlen : ¬ es.length = 0 := by rw [hes]; simp
    rw [if_neg hlen]
    simp

/-- C2 witness: two records with a comma, a quote and an empty notes
cell survive the append then read round trip. -/

theorem c2_append_read_roundtrip_witness :
    read_last_n (appendAll none [⟨"2025-01-01", "5", "Fo,od", "a\"b"⟩,
      ⟨"2025-01-02", "7", "Rent", ""⟩]) 2 =
      [⟨"2025-01-01", "5", "Fo,od", "a\"b"⟩, ⟨"2025-01-02", "7", "Rent", ""⟩] :=
  c2_append_read_roundtrip
    [⟨"2025-01-01", "5", "Fo,od", "a\"b"⟩, ⟨"2025-01-02", "7", "Rent", ""⟩]
    none (Or.inl rfl) (by decide)

theorem read_last_n_some (content : String) (n : Nat) :
    read_last_n (some content) n =
      (if content.data = [] then []
        else match csvParse content.data with
        | [] => []
        | header :: body =>
          if header = [] then []
          else if CSV_HEADERS.all (fun h => header.contains h) then
            let es := (body.filter (fun r => r ≠ [])).map (mkExpense header)
            if n = 0 then es else es.drop (es.length - n)
          else []) := rfl

/-- C4 (counterexample): a header with an extra fifth column does not
match the expected column set exactly, yet read_last_n returns the data
row rather than an empty sequence, because the source only checks that
every expected column is present. -/

theorem c4_counterexample :
    read_last_n (some "date,amount,category,notes,extra\r\n2025-01-01,5,Food,,x\r\n") 5 =
      [⟨"2025-01-01", "5", "Food", ""⟩] ∧
    read_last_n (some "date,amount,category,notes,extra\r\n2025-01-01,5,Food,,x\r\n") 5 ≠
      ([] : List Expense) :=
  ⟨by decide, by decide⟩

/-- C4 (amended): on an existing non-empty store file, read_last_n
returns the empty sequence when the header lacks one of the four
expected column names; when all four names are present — extra columns
allowed — the file is accepted and the non-blank rows are read. -/

theorem c4_header_check (content : String) (n : Nat) (header : List String)
    (body : List (List String))
    (hp : csvParse content.data = header :: body) (hnil : content.data ≠ []) :
    ((∃ h ∈ CSV_HEADERS, h ∉ header) → read_last_n (some content) n = []) ∧
    ((∀ h ∈ CSV_HEADERS, h ∈ header) → header ≠ [] →
      (body.filter (fun r => r ≠ [])) ≠ [] → 1 ≤ n →
      read_last_n (some content) n ≠ []) := by
  rw [read_last_n_some, if_neg hnil, hp]
  constructor
  · intro hmiss
    show (if header = [] then []
      else if (CSV_HEADERS.all fun h => header.contains h) = true then
        (let es := (body.filter (fun r => r ≠ [])).map (mkExpense header)
         if n = 0 then es else es.drop (es.length - n))
      else []) = []
    by_cases hh : header = []
    · rw [if_pos hh]
    · rw [if_neg hh]
      have hall : (CSV_HEADERS.all (fun h => header.contains h)) = false := by
        obtain ⟨h, hmem, hnot⟩ := hmiss
        rw [List.all_eq_false]
        refine ⟨h, hmem, ?_⟩
        simp [hnot]
      rw [hall]
      simp
  · intro hall hh hbody hn
    show (if header = [] then []
      else if (CSV_HEADERS.all fun h => header.contains h) = true then
        (let es := (body.filter (fun r => r ≠ [])).map (mkExpense header)
         if n = 0 then es else es.drop (es.length - n))
      else []) ≠ []
    rw [if_neg hh]
    have hcond : (CSV_HEADERS.all (fun h => header.contains h)) = true := by
      rw [List.all_eq_true]
      intro h hmem
      simp [hall h hmem]
    rw [hcond]
    simp only [if_pos]
    have hlen : 1 ≤ ((body.filter (fun r => r ≠ [])).map (mkExpense header)).length := by
      rw [List.length_map]
      cases hb : body.filter (fun r => r ≠ []) with
      | nil => exact absurd hb hbody
      | cons a t => simp
    intro hcontra
    rw [if_neg (by omega : ¬ n = 0)] at hcontra
    rw [List.drop_eq_nil_iff] at hcontra
    omega

/-- C6: read_last_n on a missing or an empty file returns the empty
sequence for every requested count; the model is a total function, so
no failure path exists. -/

theorem c6_read_missing_or_empty (n : Nat) :
    read_last_n none n = [] ∧ read_last_n (some "") n = [] := ⟨rfl, rfl⟩

/-- C4 witness: the header check applied to a file missing the notes
column, which is rejected, and to a file with an extra column, which is
accepted and read. -/

theorem c4_header_check_witness :
    (read_last_n (some "date,amount,category\r\n2025-01-01,5,Food\r\n") 5 = []) ∧
    (read_last_n (some "date,amount,category,notes,extra\r\n2025-01-01,5,Food,,x\r\n") 5 ≠
      ([] : List Expense)) := by
  constructor
  · exact (c4_header_check "date,amount,category\r\n2025-01-01,5,Food\r\n" 5
      ["date", "amount", "category"] [["2025-01-01", "5", "Food"]]
      (by decide) (by decide)).1 (by decide)
  · exact (c4_header_check "date,amount,category,notes,extra\r\n2025-01-01,5,Food,,x\r\n" 5
      ["date", "amount", "category", "notes", "extra"] [["2025-01-01", "5", "Food", "", "x"]]
      (by decide) (by decide)).2 (by decide) (by decide) (by decide) (by decide)

/-- C5: group_small returns its input unmodified whenever the values sum
to exactly zero, the empty mapping included.  The ratio division is only
reached under a nonzero total, so no division by zero arises. -/

theorem c5_group_small_zero_total (totals : List (String × ℚ)) (min_ratio : ℚ)
    (other_label : String) (h : qSum (totals.map Prod.snd) = 0) :
    group_small totals min_ratio other_label = totals := by
  simp only [group_small, h, reduceIte]

/-- C5 witness: the zero-total theorem applied to the empty mapping and
to a cancelling mapping. -/

theorem c5_group_small_zero_total_witness :
    group_small [] (mkRat 3 100) "Other" = [] ∧
    group_small [("A", 5), ("B", -5)] (mkRat 3 100) "Other" = [("A", 5), ("B", -5)] :=
  ⟨c5_group_small_zero_total [] (mkRat 3 100) "Other" (by decide),
    c5_group_small_zero_total [("A", 5), ("B", -5)] (mkRat 3 100) "Other" (by decide)⟩

theorem foldlM_row_error (header : List String) (catCol amtCol : String)
    (l : List (List String)) (row : List String) (hrow : row ∈ l)
    (hcat : stripS ((dictGet header row catCol).getD "") ≠ "")
    (herr : ∃ e0, parse_amount (dictGet header row amtCol) = .error e0) :
    ∀ acc, ∃ e, l.foldlM (totalsStep header catCol amtCol) acc = .error e := by
  induction l with
  | nil => exact absurd hrow (by simp)
  | cons a t ih =>
    intro acc
    rw [List.foldlM_cons]
    cases hstep : totalsStep header catCol amtCol acc a with
    | error e => exact ⟨e, rfl⟩
    | ok acc2 =>
      rcases List.mem_cons.mp hrow with hr | hr
      · exfalso
        subst hr
        obtain ⟨e0, he0⟩ := herr
        unfold totalsStep at hstep
        rw [if_neg hcat, he0] at hstep
        exact Except.noConfusion hstep
      · obtain ⟨e, he⟩ := ih hr acc2
        exact ⟨e, he⟩

/-- C9: in the aggregation of the report path, one row with a non-blank
category and an amount cell that is empty or fails to parse makes the
whole read fail, whatever the other rows hold — there is no row-level
tolerance on this path, against the entry-tool read path that maps bad
cells to empty strings. -/

theorem c9_bad_amount_aborts (content : String) (header : List String)
    (body : List (List String)) (catCol amtCol : String) (row : List String)
    (hp : csvParse (stripBOM content.data) = header :: body)
    (hh : header ≠ [])
    (hc : findCols header = some (catCol, amtCol))
    (hrow : row ∈ body.filter (fun r => r ≠ []))
    (hcat : stripS ((dictGet header row catCol).getD "") ≠ "")
    (herr : ∃ e0, parse_amount (dictGet header row amtCol) = .error e0) :
    ∃ e, read_csv_totals (some content) = .error e := by
  obtain ⟨e, he⟩ := foldlM_row_error header catCol amtCol _ row hrow hcat herr []
  refine ⟨e, ?_⟩
  simp only [read_csv_totals, hp, hh, reduceIte, hc, processRows, he]

/-- C9 witness: an unparseable amount under a non-blank category aborts
the read of a concrete file. -/

theorem c9_bad_amount_aborts_witness :
    ∃ e, read_csv_totals (some "category,amount\r\nFood,abc\r\n") = .error e :=
  c9_bad_amount_aborts "category,amount\r\nFood,abc\r\n" ["category", "amount"]
    [["Food", "abc"]] "category" "amount" ["Food", "abc"] (by decide) (by decide)
    (by decide) (by decide) (by decide)
    ⟨"could not convert string to float", by decide⟩

/-- C10: a header containing any casing or blank padding of category and
amount passes the required-column check, and exactly those two columns
feed the aggregation. -/

theorem c10_header_case_insensitive (content : String) (header : List String)
    (body : List (List String)) (f1 f2 : String)
    (hp : csvParse (stripBOM content.data) = header :: body)
    (h1 : f1 ∈ header) (hn1 : normCol f1 = "category")
    (h2 : f2 ∈ header) (hn2 : normCol f2 = "amount") :
    ∃ c a, findCols header = some (c, a) ∧ normCol c = "category" ∧ normCol a = "amount" ∧
      read_csv_totals (some content) = processRows header body c a := by
  have hh : header ≠ [] := by
    intro h0
    subst h0
    exact absurd h1 (by simp)
  have hcs : (header.reverse.find? (fun c => normCol c = "category")).isSome = true :=
    List.find?_isSome.mpr ⟨f1, List.mem_reverse.mpr h1, by simp [hn1]⟩
  have has : (header.reverse.find? (fun c => normCol c = "amount")).isSome = true :=
    List.find?_isSome.mpr ⟨f2, List.mem_reverse.mpr h2, by simp [hn2]⟩
  obtain ⟨c, hcfind⟩ := Option.isSome_iff_exists.mp hcs
  obtain ⟨a, hafind⟩ := Option.isSome_iff_exists.mp has
  have hcp : normCol c = "category" := by
    have := List.find?_some hcfind
    simpa using this
  have hap : normCol a = "amount" := by
    have := List.find?_some hafind
    simpa using this
  have hfind : findCols header = some (c, a) := by
    unfold findCols
    rw [hcfind, hafind]
  refine ⟨c, a, hfind, hcp, hap, ?_⟩
  simp only [read_csv_totals, hp, hh, reduceIte, hfind]

/-- C10 witness: a padded upper-case amount column and a capitalized
category column are accepted and drive the aggregation. -/

theorem c10_header_case_insensitive_witness :
    ∃ c a, findCols ["Category", " AMOUNT "] = some (c, a) ∧ normCol c = "category" ∧
      normCol a = "amount" ∧
      read_csv_totals (some "Category, AMOUNT \r\nFood,5\r\n") =
        processRows ["Category", " AMOUNT "] [["Food", "5"]] c a :=
  c10_header_case_insensitive "Category, AMOUNT \r\nFood,5\r\n" ["Category", " AMOUNT "]
    [["Food", "5"]] "Category" " AMOUNT " (by decide) (by decide) (by decide) (by decide)
    (by decide)

theorem qAdd_eq (a b : ℚ) : qAdd a b = a + b := (Rat.add_def' a b).symm

theorem qSum_eq (l : List ℚ) : qSum l = l.sum := by
  have h : ∀ s : ℚ, l.foldl qAdd s = s + l.sum := by
    induction l with
    | nil => intro s; simp [List.foldl]
    | cons a t ih =>
      intro s
      rw [List.foldl_cons, ih, qAdd_eq, List.sum_cons]
      ring
  unfold qSum
  rw [h 0, zero_add]

theorem lookup_not_mem {l : List (String × ℚ)} {k : String}
    (h : k ∉ l.map Prod.fst) : List.lookup k l = none := by
  induction l with
  | nil => rfl
  | cons a t ih =>
    obtain ⟨a1, a2⟩ := a
    have hk : k ≠ a1 := by
      intro he
      exact h (by simp [he])
    rw [List.lookup_cons, show (k == a1) = false from beq_eq_false_iff_ne.mpr hk]
    exact ih (fun hm => h (by simp at hm ⊢; right; exact hm))

theorem lookup_of_mem_nodup {l : List (String × ℚ)} (hnd : (l.map Prod.fst).Nodup)
    {k : String} {v : ℚ} (h : (k, v) ∈ l) : List.lookup k l = some v := by
  induction l with
  | nil => exact absurd h (by simp)
  | cons a t ih =>
    obtain ⟨a1, a2⟩ := a
    rcases List.mem_cons.mp h with he | ht
    · obtain ⟨h1, h2⟩ := Prod.mk.injEq .. ▸ he
      rw [List.lookup_cons, show (k == a1) = true from beq_iff_eq.mpr h1]
      rw [h2]
    · have hk : k ≠ a1 := by
        intro heq
        subst heq
        have hmem : k ∈ t.map Prod.fst := List.mem_map.mpr ⟨(k, v), ht, rfl⟩
        exact (List.nodup_cons.mp (by simpa using hnd)).1 hmem
      rw [List.lookup_cons, show (k == a1) = false from beq_eq_false_iff_ne.mpr hk]
      exact ih (List.nodup_cons.mp (by simpa using hnd)).2 ht

theorem lookup_append_not_mem {l1 l2 : List (String × ℚ)} {k : String}
    (h : k ∉ l1.map Prod.fst) :
    List.lookup k (l1 ++ l2) = List.lookup k l2 := by
  induction l1 with
  | nil => rfl
  | cons a t ih =>
    obtain ⟨a1, a2⟩ := a
    have hk : k ≠ a1 := by
      intro he
      exact h (by simp [he])
    rw [List.cons_append, List.lookup_cons,
      show (k == a1) = false from beq_eq_false_iff_ne.mpr hk]
    exact ih (fun hm => h (by simp at hm ⊢; right; exact hm))

theorem lookup_append_single_ne {l : List (String × ℚ)} {k label : String} (w : ℚ)
    (h : k ≠ label) : List.lookup k (l ++ [(label, w)]) = List.lookup k l := by
  induction l with
  | nil =>
    rw [List.nil_append, List.lookup_cons,
      show (k == label) = false from beq_eq_false_iff_ne.mpr h]
  | cons a t ih =>
    obtain ⟨a1, a2⟩ := a
    rw [List.cons_append, List.lookup_cons, List.lookup_cons]
    by_cases hk : k = a1
    · rw [show (k == a1) = true from beq_iff_eq.mpr hk]
    · rw [show (k == a1) = false from beq_eq_false_iff_ne.mpr hk]
      exact ih

theorem lookup_dictAdd_ne {l : List (String × ℚ)} {k label : String} (w : ℚ)
    (h : k ≠ label) : List.lookup k (dictAdd l label w) = List.lookup k l := by
  unfold dictAdd
  by_cases hc : (l.map Prod.fst).contains label
  · rw [if_pos hc]
    clear hc
    induction l with
    | nil => rfl
    | cons a t ih =>
      obtain ⟨a1, a2⟩ := a
      rw [List.map_cons]
      by_cases ha : a1 = label
      · simp only [ha, reduceIte]
        rw [List.lookup_cons, List.lookup_cons,
          show (k == label) = false from beq_eq_false_iff_ne.mpr h]
        exact ih
      · simp only [ha, reduceIte]
        rw [List.lookup_cons, List.lookup_cons]
        by_cases hk : k = a1
        · rw [show (k == a1) = true from beq_iff_eq.mpr hk]
        · rw [show (k == a1) = false from beq_eq_false_iff_ne.mpr hk]
          exact ih
  · rw [if_neg hc]
    exact lookup_append_single_ne w h

theorem contains_keys_iff (l : List (String × ℚ)) (k : String) :
    (l.map Prod.fst).contains k = true ↔ k ∈ l.map Prod.fst := by
  simp

theorem lookup_map_update {l : List (String × ℚ)} (hnd : (l.map Prod.fst).Nodup)
    {label : String} {v0 : ℚ} (h : (label, v0) ∈ l) (w : ℚ) :
    List.lookup label (l.map (fun kv => if kv.1 = label then (kv.1, qAdd kv.2 w) else kv)) =
      some (qAdd v0 w) := by
  induction l with
  | nil => exact absurd h (by simp)
  | cons a t ih =>
    obtain ⟨a1, a2⟩ := a
    rw [List.map_cons]
    rcases List.mem_cons.mp h with he | ht
    · obtain ⟨h1, h2⟩ := Prod.mk.injEq .. ▸ he
      subst h1 h2
      simp only [reduceIte]
      rw [List.lookup_cons, show (label == label) = true from beq_iff_eq.mpr rfl]
    · have ha : a1 ≠ label := by
        intro heq
        subst heq
        have hmem : a1 ∈ t.map Prod.fst := List.mem_map.mpr ⟨(a1, v0), ht, rfl⟩
        exact (List.nodup_cons.mp (by simpa using hnd)).1 hmem
      simp only [ha, reduceIte]
      rw [List.lookup_cons, show (label == a1) = false from beq_eq_false_iff_ne.mpr (Ne.symm ha)]
      exact ih (List.nodup_cons.mp (by simpa using hnd)).2 ht

theorem lookup_dictAdd_mem {l : List (String × ℚ)} (hnd : (l.map Prod.fst).Nodup)
    {label : String} {v0 : ℚ} (h : (label, v0) ∈ l) (w : ℚ) :
    List.lookup label (dictAdd l label w) = some (qAdd v0 w) := by
  unfold dictAdd
  have hmem : label ∈ l.map Prod.fst := List.mem_map.mpr ⟨(label, v0), h, rfl⟩
  rw [if_pos ((contains_keys_iff l label).mpr hmem)]
  exact lookup_map_update hnd h w

theorem lookup_dictAdd_not_mem {l : List (String × ℚ)} {label : String}
    (h : label ∉ l.map Prod.fst) (w : ℚ) :
    List.lookup label (dictAdd l label w) = some w := by
  unfold dictAdd
  rw [if_neg (fun hc => h ((contains_keys_iff l label).mp hc))]
  rw [lookup_append_not_mem h, List.lookup_cons,
    show (label == label) = true from beq_iff_eq.mpr rfl]

theorem dictSet_fresh {l : List (String × ℚ)} {k : String} (v : ℚ)
    (h : k ∉ l.map Prod.fst) : dictSet l k v = l ++ [(k, v)] := by
  unfold dictSet
  rw [if_neg (fun hc => h ((contains_keys_iff l k).mp hc))]

theorem insDesc_perm (x : String × ℚ) (l : List (String × ℚ)) :
    List.Perm (insDesc x l) (x :: l) := by
  induction l with
  | nil => exact List.Perm.refl _
  | cons y t ih =>
    unfold insDesc
    by_cases hy : y.2 ≤ x.2
    · rw [if_pos hy]
    · rw [if_neg hy]
      exact (List.Perm.cons y ih).trans (List.Perm.swap x y t)

theorem sortDesc_perm (l : List (String × ℚ)) : List.Perm (sortDesc l) l := by
  induction l with
  | nil => exact List.Perm.refl _
  | cons x t ih =>
    unfold sortDesc
    exact (insDesc_perm x (sortDesc t)).trans (List.Perm.cons x ih)

theorem gs_fold (total r : ℚ) (l : List (String × ℚ)) :
    ∀ (big0 : List (String × ℚ)) (s0 : ℚ),
      (∀ kv ∈ l, kv.1 ∉ big0.map Prod.fst) → ((l.map Prod.fst).Nodup) →
      l.foldl (fun (acc : List (String × ℚ) × ℚ) kv =>
          if qDiv (qAbs kv.2) (qAbs total) < r then (acc.1, qAdd acc.2 kv.2)
          else (dictSet acc.1 kv.1 kv.2, acc.2)) (big0, s0) =
        (big0 ++ l.filter (fun kv => ¬ qDiv (qAbs kv.2) (qAbs total) < r),
          s0 + ((l.filter (fun kv => qDiv (qAbs kv.2) (qAbs total) < r)).map Prod.snd).sum) := by
  induction l with
  | nil => intro big0 s0 _ _; simp
  | cons kv t ih =>
    intro big0 s0 hdisj hnd
    rw [List.foldl_cons]
    by_cases hsmall : qDiv (qAbs kv.2) (qAbs total) < r
    · have hstep : (if qDiv (qAbs kv.2) (qAbs total) < r
          then ((big0, s0).1, qAdd (big0, s0).2 kv.2)
          else (dictSet (big0, s0).1 kv.1 kv.2, (big0, s0).2)) = (big0, qAdd s0 kv.2) := by
        rw [if_pos hsmall]
      rw [hstep]
      rw [ih big0 (qAdd s0 kv.2) (fun x hx => hdisj x (by simp [hx]))
        (by simpa using (List.nodup_cons.mp (by simpa using hnd)).2)]
      rw [Prod.mk.injEq]
      constructor
      · rw [List.filter_cons, if_neg (by simp [hsmall])]
      · rw [List.filter_cons, if_pos (by simpa using hsmall), List.map_cons, List.sum_cons,
          qAdd_eq]
        ring
    · have hstep : (if qDiv (qAbs kv.2) (qAbs total) < r
          then ((big0, s0).1, qAdd (big0, s0).2 kv.2)
          else (dictSet (big0, s0).1 kv.1 kv.2, (big0, s0).2)) =
          (dictSet big0 kv.1 kv.2, s0) := by
        rw [if_neg hsmall]
      rw [hstep]
      rw [dictSet_fresh kv.2 (hdisj kv (by simp))]
      have hkv1 : kv.1 ∉ t.map Prod.fst := (List.nodup_cons.mp (by simpa using hnd)).1
      rw [ih (big0 ++ [kv]) s0 (fun x hx => by
          rw [List.map_append]
          intro hmem
          rcases List.mem_append.mp hmem with hm | hm
          · exact hdisj x (by simp [hx]) hm
          · have : x.1 = kv.1 := by simpa using hm
            exact hkv1 (this ▸ List.mem_map.mpr ⟨x, hx, rfl⟩))
        (by simpa using (List.nodup_cons.mp (by simpa using hnd)).2)]
      rw [Prod.mk.injEq]
      constructor
      · rw [List.append_assoc, List.filter_cons, if_pos (by simpa using hsmall)]
        rfl
      · rw [List.filter_cons, if_neg (by simpa using hsmall)]

/-- C3 (counterexample): the claim as stated fails twice on the code.
With totals A 100, B 1, C minus 1 at ratio 8 percent, B and C fall below
the threshold and their folded sum is zero, so the code drops the Other
bucket entirely, where the claim demands a bucket holding the sum zero.
With totals Other 90, B 5, C 5, the Other category clears the threshold
but absorbs the folded ten, ending at 100 instead of passing through
unchanged as the claim demands. -/

theorem c3_counterexample :
    List.lookup "Other"
      (group_small [("A", 100), ("B", 1), ("C", -1)] (mkRat 8 100) "Other") = none ∧
    List.lookup "Other"
      (group_small [("Other", 90), ("B", 5), ("C", 5)] (mkRat 8 100) "Other") =
      some 100 := ⟨by decide, by decide⟩

/-- C3 (amended): over a totals mapping with distinct keys and a nonzero
value sum, group_small passes every category at or above the ratio
threshold through unchanged when its name is not the bucket label, drops
every below-threshold category, and invents no category.  The bucket
label holds the folded sum of the below-threshold categories only when
that sum clears the 1e-12 magnitude floor; a passing category that
already bears the bucket label absorbs the folded sum instead of passing
through unchanged. -/

theorem c3_group_small_characterization (totals : List (String × ℚ)) (r : ℚ)
    (label : String) (total S : ℚ)
    (hnodup : (totals.map Prod.fst).Nodup)
    (htotal : total = qSum (totals.map Prod.snd))
    (htot : ¬ total = 0)
    (hS : S = qSum ((totals.filter
      (fun kv => qDiv (qAbs kv.2) (qAbs total) < r)).map Prod.snd)) :
    (∀ k v, (k, v) ∈ totals → k ≠ label → ¬ qDiv (qAbs v) (qAbs total) < r →
      List.lookup k (group_small totals r label) = some v) ∧
    (∀ k v, (k, v) ∈ totals → k ≠ label → qDiv (qAbs v) (qAbs total) < r →
      List.lookup k (group_small totals r label) = none) ∧
    (∀ k, k ∉ totals.map Prod.fst → k ≠ label →
      List.lookup k (group_small totals r label) = none) ∧
    (∀ v0, (label, v0) ∈ totals → ¬ qDiv (qAbs v0) (qAbs total) < r →
      List.lookup label (group_small totals r label) =
        some (if epsTiny < qAbs S then qAdd v0 S else v0)) ∧
    ((∀ v0, (label, v0) ∈ totals → qDiv (qAbs v0) (qAbs total) < r) →
      List.lookup label (group_small totals r label) =
        (if epsTiny < qAbs S then some S else none)) := by
  subst htotal
  subst hS
  have hperm := sortDesc_perm totals
  have hndsorted : ((sortDesc totals).map Prod.fst).Nodup :=
    ((hperm.map Prod.fst).nodup_iff).mpr hnodup
  have hfold := gs_fold (qSum (totals.map Prod.snd)) r (sortDesc totals) [] 0
    (by simp) hndsorted
  have hsum : 0 + (((sortDesc totals).filter
      (fun kv => qDiv (qAbs kv.2) (qAbs (qSum (totals.map Prod.snd))) < r)).map Prod.snd).sum =
      qSum ((totals.filter
        (fun kv => qDiv (qAbs kv.2) (qAbs (qSum (totals.map Prod.snd))) < r)).map Prod.snd) := by
    rw [zero_add, qSum_eq ((totals.filter
      (fun kv => qDiv (qAbs kv.2) (qAbs (qSum (totals.map Prod.snd))) < r)).map Prod.snd)]
    exact List.Perm.sum_eq ((hperm.filter _).map Prod.snd)
  have hgs : group_small totals r label =
      (if epsTiny < qAbs (qSum ((totals.filter
          (fun kv => qDiv (qAbs kv.2) (qAbs (qSum (totals.map Prod.snd))) < r)).map Prod.snd))
        then dictAdd ((sortDesc totals).filter
            (fun kv => ¬ qDiv (qAbs kv.2) (qAbs (qSum (totals.map Prod.snd))) < r)) label
          (qSum ((totals.filter
            (fun kv => qDiv (qAbs kv.2) (qAbs (qSum (totals.map Prod.snd))) < r)).map Prod.snd))
        else (sortDesc totals).filter
          (fun kv => ¬ qDiv (qAbs kv.2) (qAbs (qSum (totals.map Prod.snd))) < r)) := by
    simp only [group_small, htot, reduceIte, hfold, hsum, List.nil_append]
  have hbignd : (((sortDesc totals).filter
      (fun kv => ¬ qDiv (qAbs kv.2) (qAbs (qSum (totals.map Prod.snd))) < r)).map
        Prod.fst).Nodup :=
    ((List.filter_sublist _).map Prod.fst).nodup hndsorted
  have hmem_big : ∀ k v, ((k, v) ∈ (sortDesc totals).filter
      (fun kv => ¬ qDiv (qAbs kv.2) (qAbs (qSum (totals.map Prod.snd))) < r) ↔
      (k, v) ∈ totals ∧ ¬ qDiv (qAbs v) (qAbs (qSum (totals.map Prod.snd))) < r) := by
    intro k v
    rw [List.mem_filter, hperm.mem_iff]
    simp
  have huniq : ∀ k (v v' : ℚ), (k, v) ∈ totals → (k, v') ∈ totals → v = v' := by
    intro k v v' h1 h2
    exact Option.some.inj
      ((lookup_of_mem_nodup hnodup h1).symm.trans (lookup_of_mem_nodup hnodup h2))
  have hkey_not : ∀ k, k ≠ label →
      (∀ v, (k, v) ∈ totals → qDiv (qAbs v) (qAbs (qSum (totals.map Prod.snd))) < r) →
      List.lookup k (group_small totals r label) = none := by
    intro k hkl hsmallall
    have hnotmem : k ∉ ((sortDesc totals).filter
        (fun kv => ¬ qDiv (qAbs kv.2) (qAbs (qSum (totals.map Prod.snd))) < r)).map
          Prod.fst := by
      intro hmem
      obtain ⟨kv, hkv, hfst⟩ := List.mem_map.mp hmem
      obtain ⟨k0, v0⟩ := kv
      obtain ⟨hin, hpass⟩ := (hmem_big k0 v0).mp hkv
      exact hpass (hsmallall v0 (by rw [show k0 = k from hfst] at hin; exact hin))
    rw [hgs]
    by_cases he : epsTiny < qAbs (qSum ((totals.filter
        (fun kv => qDiv (qAbs kv.2) (qAbs (qSum (totals.map Prod.snd))) < r)).map Prod.snd))
    · rw [if_pos he, lookup_dictAdd_ne _ hkl]
      exact lookup_not_mem hnotmem
    · rw [if_neg he]
      exact lookup_not_mem hnotmem
  refine ⟨?_, ?_, ?_, ?_, ?_⟩
  · intro k v hin hkl hpass
    have hinbig := (hmem_big k v).mpr ⟨hin, hpass⟩
    rw [hgs]
    by_cases he : epsTiny < qAbs (qSum ((totals.filter
        (fun kv => qDiv (qAbs kv.2) (qAbs (qSum (totals.map Prod.snd))) < r)).map Prod.snd))
    · rw [if_pos he, lookup_dictAdd_ne _ hkl]
      exact lookup_of_mem_nodup hbignd hinbig
    · rw [if_neg he]
      exact lookup_of_mem_nodup hbignd hinbig
  · intro k v hin hkl hsmall
    exact hkey_not k hkl (fun v' hv' => huniq k v' v hv' hin ▸ hsmall)
  · intro k hnot hkl
    exact hkey_not k hkl (fun v' hv' => absurd (List.mem_map.mpr ⟨(k, v'), hv', rfl⟩) hnot)
  · intro v0 hin hpass
    have hinbig := (hmem_big label v0).mpr ⟨hin, hpass⟩
    rw [hgs]
    by_cases he : epsTiny < qAbs (qSum ((totals.filter
        (fun kv => qDiv (qAbs kv.2) (qAbs (qSum (totals.map Prod.snd))) < r)).map Prod.snd))
    · rw [if_pos he, if_pos he]
      exact lookup_dictAdd_mem hbignd hinbig _
    · rw [if_neg he, if_neg he]
      exact lookup_of_mem_nodup hbignd hinbig
  · intro hsmallall
    have hnotmem : label ∉ ((sortDesc totals).filter
        (fun kv => ¬ qDiv (qAbs kv.2) (qAbs (qSum (totals.map Prod.snd))) < r)).map
          Prod.fst := by
      intro hmem
      obtain ⟨kv, hkv, hfst⟩ := List.mem_map.mp hmem
      obtain ⟨k0, v0⟩ := kv
      obtain ⟨hin, hpass⟩ := (hmem_big k0 v0).mp hkv
      exact hpass (hsmallall v0 (by rw [show k0 = label from hfst] at hin; exact hin))
    rw [hgs]
    by_cases he : epsTiny < qAbs (qSum ((totals.filter
        (fun kv => qDiv (qAbs kv.2) (qAbs (qSum (totals.map Prod.snd))) < r)).map Prod.snd))
    · rw [if_pos he, if_pos he]
      exact lookup_dictAdd_not_mem hnotmem _
    · rw [if_neg he, if_neg he]
      exact lookup_not_mem hnotmem

/-- C3 witness: the spec example at ratio 8 percent, total 100: the
large category A stays at 90, the small B and C disappear as named
categories, and the bucket Other carries their sum 10. -/

theorem c3_group_small_characterization_witness :
    List.lookup "A" (group_small [("A", 90), ("B", 5), ("C", 5)] (mkRat 8 100) "Other") =
      some 90 ∧
    List.lookup "B" (group_small [("A", 90), ("B", 5), ("C", 5)] (mkRat 8 100) "Other") =
      none ∧
    List.lookup "C" (group_small [("A", 90), ("B", 5), ("C", 5)] (mkRat 8 100) "Other") =
      none ∧
    List.lookup "Other" (group_small [("A", 90), ("B", 5), ("C", 5)] (mkRat 8 100) "Other") =
      some 10 := by
  obtain ⟨h1, h2, h3, h4, h5⟩ := c3_group_small_characterization
    [("A", 90), ("B", 5), ("C", 5)] (mkRat 8 100) "Other" 100 10
    (by decide) (by decide) (by decide) (by decide)
  refine ⟨h1 "A" 90 (by decide) (by decide) (by decide),
    h2 "B" 5 (by decide) (by decide) (by decide),
    h2 "C" 5 (by decide) (by decide) (by decide), ?_⟩
  have h6 := h5 (by intro v0 hv0; simp at hv0)
  rw [h6]
  decide
